import Mathlib

/-!
Verification of the ghost-form reactive form store (`FormEngine` and its path
utilities) against its natural-language specification.

JavaScript values are embedded as trees in which every object and array node
carries an identity tag (`id : Nat`): two nodes are `===`-equal exactly when
their tags coincide, which lets the embedding express the reference-equality
checks the engine performs (`currentVal !== fieldState.value`) as well as the
deep-copy isolation of `deepClone`.  Fresh tags are drawn from a counter that
the operations thread through explicitly.  Numbers are modelled as integers
(no claim involves fractional values or NaN).
-/

namespace GhostForm

mutual

/-- JavaScript value trees.  `vobj`/`varr` carry an identity tag modelling the
object's heap identity; `vundef` is JavaScript's `undefined`. -/
inductive JVal : Type where
  | vstr (s : String)
  | vnum (n : Int)
  | vbool (b : Bool)
  | vnull
  | vundef
  | vobj (id : Nat) (fields : JFields)
  | varr (id : Nat) (elems : JElems)
  deriving DecidableEq

inductive JFields : Type where
  | nil
  | cons (key : String) (val : JVal) (rest : JFields)
  deriving DecidableEq

inductive JElems : Type where
  | nil
  | cons (val : JVal) (rest : JElems)
  deriving DecidableEq

end

namespace JFields

/-- Number of own keys (`Object.keys(o).length`); object field lists are
assumed key-nodup, as JavaScript objects cannot repeat keys. -/
def length : JFields → Nat
  | .nil => 0
  | .cons _ _ r => r.length + 1

/-- Own-property lookup: first binding of the key, if any. -/
def lookup : JFields → String → Option JVal
  | .nil, _ => none
  | .cons k v r, key => if k = key then some v else lookup r key

/-- Keys in insertion order. -/
def keys : JFields → List String
  | .nil => []
  | .cons k _ r => k :: keys r

/-- Property assignment `o[k] = v`: replaces the binding in place if the key
exists, otherwise appends (JavaScript insertion-order semantics). -/
def set : JFields → String → JVal → JFields
  | .nil, key, v => .cons key v .nil
  | .cons k w r, key, v => if k = key then .cons k v r else .cons k w (set r key v)

end JFields

namespace JElems

def length : JElems → Nat
  | .nil => 0
  | .cons _ r => r.length + 1

def get : JElems → Nat → Option JVal
  | .nil, _ => none
  | .cons v _, 0 => some v
  | .cons _ r, n + 1 => get r n

/-- Index assignment `a[i] = v`, extending with holes (`undefined`) past the
current length, as JavaScript does. -/
def setPad : JElems → Nat → JVal → JElems
  | .nil, 0, v => .cons v .nil
  | .nil, n + 1, v => .cons .vundef (setPad .nil n v)
  | .cons _ r, 0, v => .cons v r
  | .cons w r, n + 1, v => .cons w (setPad r n v)

end JElems

/-- JavaScript truthiness (`!!v`). -/
def truthy : JVal → Bool
  | .vstr s => s ≠ ""
  | .vnum n => n ≠ 0
  | .vbool b => b
  | .vnull => false
  | .vundef => false
  | .vobj _ _ => true
  | .varr _ _ => true

/-- JavaScript strict equality `===`: primitives by value, objects and arrays
by identity tag. -/
def jseq : JVal → JVal → Bool
  | .vstr a, .vstr b => a == b
  | .vnum a, .vnum b => a == b
  | .vbool a, .vbool b => a == b
  | .vnull, .vnull => true
  | .vundef, .vundef => true
  | .vobj i _, .vobj j _ => i == j
  | .varr i _, .varr j _ => i == j
  | _, _ => false

/-- Splits a dot path into segments, `"a.b.c".split('.')`-style (empty
segments are preserved). -/
def splitPathAux : List Char → String → List String
  | [], acc => [acc]
  | c :: cs, acc => if c = '.' then acc :: splitPathAux cs "" else splitPathAux cs (acc.push c)

def splitPath (s : String) : List String := splitPathAux s.toList ""

def digitsToNat : List Char → Option Nat
  | [] => none
  | cs => go cs 0
where
  go : List Char → Nat → Option Nat
    | [], acc => some acc
    | c :: cs, acc => if c.isDigit then go cs (acc * 10 + (c.toNat - '0'.toNat)) else none

/-- Canonical array-index strings: `"0"`, or digits without a leading zero.
JavaScript array reads `a[k]` hit an element only for such keys. -/
def canonicalIndex (s : String) : Option Nat :=
  match s.toList with
  | [] => none
  | ['0'] => some 0
  | c :: cs => if c = '0' then none else digitsToNat (c :: cs)

/-- Whether `isNaN(Number(s))` holds.  `Number("") = 0`; an optional sign
followed by a decimal numeral (digits, optionally with a decimal point, at
least one digit in total) is a number; anything else is NaN.  Hexadecimal,
exponent and whitespace forms are outside the decision the source makes with
this test and are treated as NaN. -/
def jsNumberIsNaN (s : String) : Bool :=
  if s = "" then false
  else
    let body := match s.toList with
      | '-' :: cs => cs
      | '+' :: cs => cs
      | cs => cs
    let (ip, rest) := body.span (·.isDigit)
    let ok := match rest with
      | [] => !ip.isEmpty
      | '.' :: frac => frac.all (·.isDigit) && (!ip.isEmpty || !frac.isEmpty)
      | _ => false
    !ok

/-- `Number(s)` when it denotes a non-negative integer usable as an array
index (`copy[Number(key)] = value`); leading zeros are allowed since
`Number("01") = 1`. -/
def jsNumberNat (s : String) : Option Nat :=
  if s = "" then some 0 else digitsToNat s.toList

/-- Indexed pairs of array elements, for spreading an array into an object. -/
def indexedPairs (es : JElems) (i : Nat) : JFields :=
  match es with
  | .nil => .nil
  | .cons v r => .cons (toString i) v (indexedPairs r (i + 1))

/-- Spread source pairs `{...v}`: an object's fields, an array's or string's
indexed entries, nothing for primitives/null/undefined. -/
def spreadPairs : JVal → JFields
  | .vobj _ fs => fs
  | .varr _ es => indexedPairs es 0
  | .vstr s => indexedChars s.toList 0
  | _ => .nil
where
  indexedChars : List Char → Nat → JFields
    | [], _ => .nil
    | c :: cs, i => .cons (toString i) (.vstr (String.singleton c)) (indexedChars cs (i + 1))

/-- JavaScript property read `v[k]` (with the `null`/`undefined` cases guarded
by the caller).  Primitive number/boolean reads yield `undefined`; strings
expose `length` and their characters. -/
def getProp : JVal → String → JVal
  | .vobj _ fs, k => (fs.lookup k).getD .vundef
  | .varr _ es, k =>
      if k = "length" then .vnum es.length
      else match canonicalIndex k with
        | some i => (es.get i).getD .vundef
        | none => .vundef
  | .vstr s, k =>
      if k = "length" then .vnum s.length
      else match canonicalIndex k with
        | some i => match s.toList.get? i with
          | some c => .vstr (String.singleton c)
          | none => .vundef
        | none => .vundef
  | _, _ => (.vundef)

/-- `getByPath(obj, path)`: segment-by-segment traversal returning `undefined`
the moment an intermediate value is `null`/`undefined`, or when the path is
empty or the root falsy. -/
def getByPathSegs : JVal → List String → JVal
  | v, [] => v
  | v, k :: ks =>
    if v = .vnull ∨ v = .vundef then .vundef
    else getByPathSegs (getProp v k) ks

def getByPath (obj : JVal) (path : String) : JVal :=
  if path = "" ∨ truthy obj = false then .vundef
  else getByPathSegs obj (splitPath path)

/-- Index assignment step of `setByPathImmutable`'s array branch:
`copy[Number(key)] = value` (non-index keys, which would create a named
property on the array, are outside the claims and leave the copy unchanged). -/
def elemsSetNum (es : JElems) (key : String) (v : JVal) : JElems :=
  match jsNumberNat key with
  | some n => es.setPad n v
  | none => es

/-- The recursive `update` helper of `setByPathImmutable`, threading the
fresh-identity counter: every node it allocates (`{...current, [key]: x}`,
`[...current]`, and the `{}`/`[]` intermediates) receives a fresh tag. -/
def sbpUpdate (value : JVal) : JVal → List String → Nat → JVal × Nat
  | current, [], f => (current, f)
  | current, [key], f =>
    if truthy current && jseq (getProp current key) value then (current, f)
    else match current with
      | .varr _ es => (.varr f (elemsSetNum es key value), f + 1)
      | _ => (.vobj f ((spreadPairs current).set key value), f + 1)
  | current, key :: nextKey :: rest, f =>
    let next := getProp current key
    let (nextCurrent, f1) :=
      if truthy current && truthy next then (next, f)
      else if jsNumberIsNaN nextKey then ((.vobj f .nil : JVal), f + 1)
      else ((.varr f .nil : JVal), f + 1)
    let (updatedNext, f2) := sbpUpdate value nextCurrent (nextKey :: rest) f1
    if truthy current && jseq (getProp current key) updatedNext then (current, f2)
    else match current with
      | .varr _ es => (.varr f2 (elemsSetNum es key updatedNext), f2 + 1)
      | _ => (.vobj f2 ((spreadPairs current).set key updatedNext), f2 + 1)

/-- `setByPathImmutable(obj, path, value)`: returns the updated tree (sharing
unmodified subtrees, copying only the spine) together with the advanced
identity counter; an empty path returns `value` itself. -/
def setByPathImmutable (obj : JVal) (path : String) (value : JVal) (fresh : Nat) : JVal × Nat :=
  if path = "" then (value, fresh)
  else sbpUpdate value obj (splitPath path) fresh

mutual

/-- `deepEqual(a, b)`: `===` short-circuit, then constructor check,
element-wise for arrays, key-set equality for objects. -/
def deepEqual : JVal → JVal → Bool
  | .vobj i fa, .vobj j fb => i == j || (fa.length == fb.length && deepEqualFields fa fb)
  | .varr i ea, .varr j eb => i == j || deepEqualElems ea eb
  | a, b => jseq a b

/-- Each key of the first object must be an own property of the second with a
recursively equal value. -/
def deepEqualFields : JFields → JFields → Bool
  | .nil, _ => true
  | .cons k v r, fb =>
    (match fb.lookup k with
     | some w => deepEqual v w
     | none => false) && deepEqualFields r fb

def deepEqualElems : JElems → JElems → Bool
  | .nil, .nil => true
  | .cons a ra, .cons b rb => deepEqual a b && deepEqualElems ra rb
  | _, _ => false

end

mutual

/-- `deepClone(value)`: recursive copy; arrays and plain objects are rebuilt
with fresh identity tags, primitives returned as-is. -/
def deepClone : JVal → Nat → JVal × Nat
  | .vobj _ fs, f =>
    let (fs', f') := deepCloneFields fs (f + 1)
    (.vobj f fs', f')
  | .varr _ es, f =>
    let (es', f') := deepCloneElems es (f + 1)
    (.varr f es', f')
  | v, f => (v, f)

def deepCloneFields : JFields → Nat → JFields × Nat
  | .nil, f => (.nil, f)
  | .cons k v r, f =>
    let (v', f1) := deepClone v f
    let (r', f2) := deepCloneFields r f1
    (.cons k v' r', f2)

def deepCloneElems : JElems → Nat → JElems × Nat
  | .nil, f => (.nil, f)
  | .cons v r, f =>
    let (v', f1) := deepClone v f
    let (r', f2) := deepCloneElems r f1
    (.cons v' r', f2)

end

def joinDots : List String → String
  | [] => ""
  | [s] => s
  | s :: rest => s ++ "." ++ joinDots rest

/-- `getParentPaths(path)`: all proper ancestor paths, shortest first. -/
def getParentPaths (path : String) : List String :=
  let parts := splitPath path
  ((List.range parts.length).drop 1).map fun i => joinDots (parts.take i)

/-- JSON string escaping for the characters the claims' data can contain
(quote, backslash, newline). -/
def escapeChars : List Char → String
  | [] => ""
  | c :: cs =>
    (if c = '"' then "\\\"" else if c = '\\' then "\\\\"
     else if c = '\n' then "\\n" else String.singleton c) ++ escapeChars cs

def quoteJson (s : String) : String := "\"" ++ escapeChars s.toList ++ "\""

def joinComma : List String → String
  | [] => ""
  | [s] => s
  | s :: rest => s ++ "," ++ joinComma rest

mutual

/-- `JSON.stringify(v)`: `none` models the call returning the value
`undefined` (top-level `undefined`); inside objects, `undefined`-valued keys
are omitted; inside arrays they serialize as `null`. -/
def jsonStringify : JVal → Option String
  | .vstr s => some (quoteJson s)
  | .vnum n => some (toString n)
  | .vbool b => some (if b then "true" else "false")
  | .vnull => some "null"
  | .vundef => none
  | .vobj _ fs => some ("\x7b" ++ joinComma (stringifyFields fs) ++ "\x7d")
  | .varr _ es => some ("[" ++ joinComma (stringifyElems es) ++ "]")

def stringifyFields : JFields → List String
  | .nil => []
  | .cons k v r =>
    match jsonStringify v with
    | some sv => (quoteJson k ++ ":" ++ sv) :: stringifyFields r
    | none => stringifyFields r

def stringifyElems : JElems → List String
  | .nil => []
  | .cons v r => ((jsonStringify v).getD "null") :: stringifyElems r

end

def skipWs : List Char → List Char
  | c :: cs => if c = ' ' ∨ c = '\n' ∨ c = '\t' ∨ c = '\r' then skipWs cs else c :: cs
  | [] => []

/-- A fuel-indexed `JSON.parse` for the JSON subset the store persists
(strings with the escapes of `escapeChars`, integers, booleans, null, arrays,
objects).  `none` models the call throwing a `SyntaxError`.  Parsed objects
and arrays receive fresh identity tags. -/
def parseString : List Char → Option (String × List Char)
  | '"' :: cs => go cs ""
  | _ => none
where
  go : List Char → String → Option (String × List Char)
    | [], _ => none
    | '"' :: cs, acc => some (acc, cs)
    | '\\' :: e :: cs, acc =>
      if e = 'n' then go cs (acc.push '\n')
      else if e = '"' ∨ e = '\\' then go cs (acc.push e)
      else none
    | c :: cs, acc => go cs (acc.push c)

def parseInt : List Char → Option (Int × List Char)
  | '-' :: cs =>
    let (ds, rest) := cs.span (·.isDigit)
    match digitsToNat ds with
    | some n => some (-(n : Int), rest)
    | none => none
  | cs =>
    let (ds, rest) := cs.span (·.isDigit)
    match digitsToNat ds with
    | some n => some ((n : Int), rest)
    | none => none

/-- Collapses duplicate JSON object keys the way `JSON.parse` does: the first
occurrence keeps its position, the last occurrence's value wins. -/
def dedupFields (fs : JFields) : JFields := go .nil fs
where
  go : JFields → JFields → JFields
    | acc, .nil => acc
    | acc, .cons k v r => go (acc.set k v) r

mutual

def parseVal : Nat → List Char → Nat → Option (JVal × List Char × Nat)
  | 0, _, _ => none
  | fuel + 1, cs, f =>
    match skipWs cs with
    | 'n' :: 'u' :: 'l' :: 'l' :: rest => some (.vnull, rest, f)
    | 't' :: 'r' :: 'u' :: 'e' :: rest => some (.vbool true, rest, f)
    | 'f' :: 'a' :: 'l' :: 's' :: 'e' :: rest => some (.vbool false, rest, f)
    | '"' :: cs' =>
      match parseString ('"' :: cs') with
      | some (s, rest) => some (.vstr s, rest, f)
      | none => none
    | '[' :: rest =>
      (match skipWs rest with
       | ']' :: rest' => some (.varr f .nil, rest', f + 1)
       | _ =>
         match parseElems fuel rest f with
         | some (es, rest', f') => some (.varr f' es, rest', f' + 1)
         | none => none)
    | '\x7b' :: rest =>
      (match skipWs rest with
       | '\x7d' :: rest' => some (.vobj f .nil, rest', f + 1)
       | _ =>
         match parseMembers fuel rest f with
         | some (fs, rest', f') => some (.vobj f' (dedupFields fs), rest', f' + 1)
         | none => none)
    | cs' =>
      match parseInt cs' with
      | some (n, rest) => some (.vnum n, rest, f)
      | none => none

def parseElems : Nat → List Char → Nat → Option (JElems × List Char × Nat)
  | 0, _, _ => none
  | fuel + 1, cs, f =>
    match parseVal fuel cs f with
    | some (v, rest, f') =>
      (match skipWs rest with
       | ',' :: rest' =>
         match parseElems fuel rest' f' with
         | some (es, rest'', f'') => some (.cons v es, rest'', f'')
         | none => none
       | ']' :: rest' => some (.cons v .nil, rest', f')
       | _ => none)
    | none => none

def parseMembers : Nat → List Char → Nat → Option (JFields × List Char × Nat)
  | 0, _, _ => none
  | fuel + 1, cs, f =>
    match parseString (skipWs cs) with
    | some (k, rest) =>
      (match skipWs rest with
       | ':' :: rest' =>
         match parseVal fuel rest' f with
         | some (v, rest'', f') =>
           (match skipWs rest'' with
            | ',' :: rest3 =>
              match parseMembers fuel rest3 f' with
              | some (fs, rest4, f'') => some (.cons k v fs, rest4, f'')
              | none => none
            | '\x7d' :: rest3 => some (.cons k v .nil, rest3, f')
            | _ => none)
         | none => none
       | _ => none)
    | none => none

end

/-- `JSON.parse(s)` with fresh identity tags drawn from `fresh`; `none` models
a thrown `SyntaxError`. -/
def jsonParse (s : String) (fresh : Nat) : Option (JVal × Nat) :=
  match parseVal (s.length + 1) s.toList fresh with
  | some (v, rest, f') => if skipWs rest = [] then some (v, f') else none
  | none => none

mutual

/-- All identity tags occurring in a tree. -/
def idsOf : JVal → List Nat
  | .vobj i fs => i :: idsOfFields fs
  | .varr i es => i :: idsOfElems es
  | _ => []

def idsOfFields : JFields → List Nat
  | .nil => []
  | .cons _ v r => idsOf v ++ idsOfFields r

def idsOfElems : JElems → List Nat
  | .nil => []
  | .cons v r => idsOf v ++ idsOfElems r

end

mutual

/-- Heap semantics of an external in-place mutation `ref[key] = newVal`: in a
tree re-read after the assignment, every node whose identity equals the target
reference's identity shows the updated field (well-formed trees contain each
identity at most once). -/
def mutateObjAt : JVal → Nat → String → JVal → JVal
  | .vobj i fs, t, k, nv =>
    if i = t then .vobj i (fs.set k nv) else .vobj i (mutateFieldsAt fs t k nv)
  | .varr i es, t, k, nv => .varr i (mutateElemsAt es t k nv)
  | v, _, _, _ => v

def mutateFieldsAt : JFields → Nat → String → JVal → JFields
  | .nil, _, _, _ => .nil
  | .cons key v r, t, k, nv => .cons key (mutateObjAt v t k nv) (mutateFieldsAt r t k nv)

def mutateElemsAt : JElems → Nat → String → JVal → JElems
  | .nil, _, _, _ => .nil
  | .cons v r, t, k, nv => .cons (mutateObjAt v t k nv) (mutateElemsAt r t k nv)

end

/-- Identity of the node a reference points at (primitives have none; the
claims only mutate through object references). -/
def rootIdOf : JVal → Nat
  | .vobj i _ => i
  | .varr i _ => i
  | _ => 0

/-! ## The reactive store (`FormEngine`, src/unnamed/part_002) -/

/-- Per-path field state; `error : Option String` with `none` standing for
`undefined` (the engine never writes `null` into `error`). -/
structure FieldState where
  value : JVal
  error : Option String
  isDirty : Bool
  isTouched : Bool
  isValid : Bool
  deriving DecidableEq

/-- The error record `Record<string, string | undefined>`: a key-nodup
association list; a `(k, none)` entry is a key present with value
`undefined`. -/
abbrev ErrMap := List (String × Option String)

/-- Whole-form status record. -/
structure FormStatus where
  isValid : Bool
  isSubmitting : Bool
  isValidating : Bool
  isDirty : Bool
  submitCount : Nat
  errors : ErrMap
  deriving DecidableEq

def initialStatus : FormStatus :=
  { isValid := true, isSubmitting := false, isValidating := false,
    isDirty := false, submitCount := 0, errors := [] }

inductive ValidationMode where
  | all | onBlur | onChange | onSubmit
  deriving DecidableEq

/-- Outcome of a synchronous call into the storage backend: a value, a
synchronously thrown exception, or a returned `Promise` (whose later
settlement is outside the synchronous semantics; a rejection reaches only the
`.catch`/unhandled-rejection channel, never the caller). -/
inductive SRes (α : Type) where
  | ok (a : α)
  | thrown
  | pending
  deriving DecidableEq

/-- The pluggable `FormStorage` backend. -/
structure FormStorage where
  getItem : String → SRes (Option String)
  setItem : String → String → SRes Unit
  removeItem : String → SRes Unit

/-- Construction config.  `onChangePresent` models whether the informational
`onChange` hook is configured (its only engine-visible effect is being
invoked); the unused `preventFocusOnValidationError` and the engine-unused
`onSubmit` hook are omitted. -/
structure FormConfig where
  initialValues : JVal
  mode : Option ValidationMode
  validate : Option (JVal → ErrMap)
  onChangePresent : Bool
  storage : Option FormStorage
  storageKey : Option String

/-- Observable effects of an operation, in emission order.  `fieldNotify` is
emitted per registered field-listener set (the engine skips paths without
listeners); `formNotify` records an invocation of `notifyForm` and carries the
status listeners would read; `storageGet`/`storageSet`/`storageRemove` record
backend calls with the key used; `logWarn`/`logError` are the diagnostic
channel; `onChangeHook`, `onValidCall`, `onInvalidCall` record callback
invocations. -/
inductive Event where
  | fieldNotify (path : String) (st : FieldState)
  | formNotify (st : FormStatus)
  | storageGet (key : String)
  | storageSet (key : String) (val : String)
  | storageRemove (key : String)
  | logWarn
  | logError
  | onChangeHook
  | onValidCall (values : JVal)
  | onInvalidCall (errors : ErrMap)
  deriving DecidableEq

/-- The `FormEngine` instance state.  `fields` is the per-path cache as an
insertion-ordered map; `fieldListeners` records the paths that currently have
at least one field listener; `fresh` is the identity-tag allocator. -/
structure Engine where
  config : FormConfig
  storage : Option FormStorage
  initialValues : JVal
  values : JVal
  fields : List (String × FieldState)
  status : FormStatus
  fieldListeners : List String
  fresh : Nat

/-- Result of a public operation: the updated engine, the events emitted, and
whether an exception propagated to the caller. -/
structure OpResult where
  engine : Engine
  events : List Event
  thrown : Bool

/-- Insertion-ordered map update (`Map.set`): replaces in place or appends. -/
def mapSet : List (String × FieldState) → String → FieldState → List (String × FieldState)
  | [], p, st => [(p, st)]
  | (q, old) :: rest, p, st =>
    if q = p then (q, st) :: rest else (q, old) :: mapSet rest p st

def mapGet : List (String × FieldState) → String → Option FieldState
  | [], _ => none
  | (q, st) :: rest, p => if q = p then some st else mapGet rest p

/-- `errors[path]` read: an absent key and a key mapped to `undefined` both
read as `undefined`. -/
def lookupErr (errors : ErrMap) (path : String) : Option String :=
  match errors.lookup path with
  | some v => v
  | none => none

/-- Own-property lookup on the error record (distinguishes an absent key from
a key with value `undefined`). -/
def lookupAssoc : ErrMap → String → Option (Option String)
  | [], _ => none
  | (k, v) :: rest, key => if k = key then some v else lookupAssoc rest key

def setAssoc : ErrMap → String → Option String → ErrMap
  | [], key, v => [(key, v)]
  | (k, w) :: rest, key, v =>
    if k = key then (k, v) :: rest else (k, w) :: setAssoc rest key v

def delAssoc : ErrMap → String → ErrMap
  | [], _ => []
  | (k, w) :: rest, key => if k = key then rest else (k, w) :: delAssoc rest key

/-- `deepEqual` restricted to two error records (plain objects whose values
are strings or `undefined`): same key count, every key of the first an own
property of the second with a strictly equal value. -/
def recordsEqual (a b : ErrMap) : Bool :=
  a.length == b.length &&
    a.all fun kv =>
      match lookupAssoc b kv.1 with
      | some w => kv.2 == w
      | none => false

/-- JavaScript truthiness of an error entry (`if (error)`): an empty string
is falsy like `undefined`. -/
def errTruthy : Option String → Bool
  | some s => s ≠ ""
  | none => false

/-- `getStorageKey()`: always derived from the length of
`JSON.stringify(this.config.initialValues)`; the configured `storageKey` is
not consulted.  (`initialValues` is an object by the engine's type bound, so
the stringification is defined; `getD` covers the unreachable case.) -/
def getStorageKey (cfg : FormConfig) : String :=
  "ghost-form-" ++ toString ((jsonStringify cfg.initialValues).getD "").length

/-- `getValues()`: the live tree itself, no copy. -/
def getValues (e : Engine) : JVal := e.values

/-- `getValue(path)`. -/
def getValue (e : Engine) (path : String) : JVal := getByPath e.values path

def getFormStatus (e : Engine) : FormStatus := e.status

/-- `getFieldState(path)`: get-or-create; the entry is created from the
current and initial resolved values with `error: undefined`,
`isTouched: false`, `isValid: true`. -/
def getFieldState (e : Engine) (path : String) : Engine × FieldState :=
  match mapGet e.fields path with
  | some st => (e, st)
  | none =>
    let value := getValue e path
    let initialValue := getByPath e.initialValues path
    let st : FieldState :=
      { value := value, error := none,
        isDirty := !deepEqual value initialValue,
        isTouched := false, isValid := true }
    ({ e with fields := mapSet e.fields path st }, st)

/-- `notifyField(path)`: only when a listener set exists for the path; the
state passed to listeners is read through `getFieldState` (which would create
it if absent). -/
def notifyField (e : Engine) (path : String) : Engine × List Event :=
  if path ∈ e.fieldListeners then
    let (e', st) := getFieldState e path
    (e', [.fieldNotify path st])
  else (e, [])

/-- `saveToStorage()`: best-effort `setItem` under `try/catch`; a synchronous
throw is logged and swallowed, a returned promise is not awaited. -/
def saveToStorage (e : Engine) : List Event :=
  match e.storage with
  | none => []
  | some st =>
    let key := getStorageKey e.config
    let payload := (jsonStringify e.values).getD ""
    match st.setItem key payload with
    | .thrown => [.storageSet key payload, .logWarn]
    | _ => [.storageSet key payload]

/-- `clearStorage()`: `removeItem` with NO try/catch — a synchronous throw
propagates to the caller (`reset`). -/
def clearStorage (e : Engine) : List Event × Bool :=
  match e.storage with
  | none => ([], false)
  | some st =>
    let key := getStorageKey e.config
    match st.removeItem key with
    | .thrown => ([.storageRemove key], true)
    | _ => ([.storageRemove key], false)

/-- The field-update loop of `validateAll`: for every tracked path whose
individual error changed, swap in the updated record and notify its
listeners. -/
def valFields (errors : ErrMap) (listeners : List String) :
    List (String × FieldState) → List (String × FieldState) × List Event
  | [] => ([], [])
  | (p, st) :: rest =>
    let r := valFields errors listeners rest
    let err := lookupErr errors p
    if st.error ≠ err then
      let st' := { st with error := err, isValid := !errTruthy err }
      ((p, st') :: r.1,
       (if p ∈ listeners then [Event.fieldNotify p st'] else []) ++ r.2)
    else ((p, st) :: r.1, r.2)

/-- `validateAll()`: one full validation pass; updates the whole-form error
record and validity if changed, then the per-field loop; returns the (post-
update) whole-form validity. -/
def validateAll (e : Engine) : Engine × List Event × Bool :=
  let errors := match e.config.validate with
    | some f => f e.values
    | none => []
  let isValid := errors.length == 0
  let e :=
    if !recordsEqual e.status.errors errors || e.status.isValid != isValid then
      { e with status := { e.status with errors := errors, isValid := isValid } }
    else e
  let fe := valFields errors e.fieldListeners e.fields
  let e := { e with fields := fe.1 }
  (e, fe.2, e.status.isValid)

/-- `validateField(path)` (used by `setBlur`): runs the full validator,
extracts the one entry for `path`, updates the field's cached error and the
whole-form error record; emits no notifications itself (only the configured
`onChange` hook call is observable). -/
def validateField (e : Engine) (path : String) : Engine × List Event × Bool :=
  let evHook := if e.config.onChangePresent then [Event.onChangeHook] else []
  let errors := match e.config.validate with
    | some f => f e.values
    | none => []
  let error := lookupErr errors path
  let gf := getFieldState e path
  let e := gf.1
  let field := gf.2
  let isValid := !errTruthy error
  if field.error ≠ error ∨ field.isValid ≠ isValid then
    let e := { e with fields := mapSet e.fields path { field with error := error, isValid := isValid } }
    let newErrors :=
      match error with
      | some s => if s ≠ "" then setAssoc e.status.errors path (some s) else delAssoc e.status.errors path
      | none => delAssoc e.status.errors path
    let isFormValid := newErrors.length == 0
    let e :=
      if e.status.isValid ≠ isFormValid ∨ !recordsEqual e.status.errors newErrors then
        { e with status := { e.status with errors := newErrors, isValid := isFormValid } }
      else e
    (e, evHook, isValid)
  else (e, evHook, isValid)

/-- `updateIsDirty()`: whole-form dirty recomputed against `initialValues`. -/
def updateIsDirty (e : Engine) : Engine :=
  let isDirty := !deepEqual e.values e.initialValues
  if e.status.isDirty != isDirty then
    { e with status := { e.status with isDirty := isDirty } }
  else e

/-- The tracked-field synchronisation loop of `setValue`: every OTHER tracked
path whose resolved value is no longer reference-identical (`!==`) to its
cached value gets a recomputed record (value and dirty) and a notification. -/
def syncEntries (vals init : JVal) (listeners : List String) (target : String) :
    List (String × FieldState) → List (String × FieldState) × List Event
  | [] => ([], [])
  | (p, st) :: rest =>
    let r := syncEntries vals init listeners target rest
    if p = target then ((p, st) :: r.1, r.2)
    else
      let currentVal := getByPath vals p
      if !jseq currentVal st.value then
        let st' := { st with value := currentVal,
                             isDirty := !deepEqual currentVal (getByPath init p) }
        ((p, st') :: r.1,
         (if p ∈ listeners then [Event.fieldNotify p st'] else []) ++ r.2)
      else ((p, st) :: r.1, r.2)

/-- Steps (a)-(c) of `setValue` after the no-op guard: immutable tree write,
tracked-field synchronisation (with its notifications), and the written
path's own state refresh. -/
def setValueCore (e : Engine) (path : String) (value : JVal) : Engine × List Event :=
  let sp := setByPathImmutable e.values path value e.fresh
  let e1 := { e with values := sp.1, fresh := sp.2 }
  let sync := syncEntries e1.values e1.initialValues e1.fieldListeners path e1.fields
  let e2 := { e1 with fields := sync.1 }
  let gf := getFieldState e2 path
  let newFieldState :=
    { gf.2 with value := value, isDirty := !deepEqual value (getByPath gf.1.initialValues path) }
  ({ gf.1 with fields := mapSet gf.1.fields path newFieldState }, sync.2)

/-- `setValue(path, value)` — the core write (src/unnamed/part_002 lines
108-160): no-op short-circuit, immutable tree write, tracked-field sync,
written-path state refresh, mode-gated validation, status refresh,
notifications, persistence. -/
def setValue (e : Engine) (path : String) (value : JVal) : OpResult :=
  let oldValue := getByPath e.values path
  if deepEqual oldValue value then ⟨e, [], false⟩
  else
    let c := setValueCore e path value
    let va :=
      if c.1.config.mode = some .onChange ∨ c.1.config.mode = some .all then validateAll c.1
      else (c.1, [], true)
    let e4 := updateIsDirty va.1
    let isValid := e4.status.errors.length == 0
    let e5 :=
      if e4.status.isValid != isValid then { e4 with status := { e4.status with isValid := isValid } }
      else e4
    let nf := notifyField e5 path
    ⟨nf.1, c.2 ++ va.2.1 ++ nf.2 ++ [Event.formNotify nf.1.status] ++ saveToStorage nf.1, false⟩

/-- `setBlur(path)`: idempotent touch with mode-gated single-field
validation. -/
def setBlur (e : Engine) (path : String) : OpResult :=
  let gf := getFieldState e path
  let e := gf.1
  let field := gf.2
  if field.isTouched then ⟨e, [], false⟩
  else
    let e := { e with fields := mapSet e.fields path { field with isTouched := true } }
    let vf :=
      if e.config.mode = some .onBlur ∨ e.config.mode = some .all then validateField e path
      else (e, [], true)
    let e := vf.1
    let nf := notifyField e path
    let e := nf.1
    ⟨e, vf.2.1 ++ nf.2 ++ [.formNotify e.status], false⟩

/-- Per-path notifications for every tracked path (the tail of
`setFullValues`). -/
def notifyAllFields (e : Engine) : List String → Engine × List Event
  | [] => (e, [])
  | p :: rest =>
    let r1 := notifyField e p
    let r2 := notifyAllFields r1.1 rest
    (r2.1, r1.2 ++ r2.2)

/-- `setFullValues(newValues)`: wholesale replacement (no clone), dirty and
validation refresh, form notification, persistence, then per-path
notifications for every tracked path.  Tracked field records themselves are
NOT recomputed. -/
def setFullValues (e : Engine) (newValues : JVal) : OpResult :=
  let e := { e with values := newValues }
  let e := updateIsDirty e
  let va := validateAll e
  let e := va.1
  let evsF := [Event.formNotify e.status]
  let evsS := saveToStorage e
  let nf := notifyAllFields e (e.fields.map Prod.fst)
  ⟨nf.1, va.2.1 ++ evsF ++ evsS ++ nf.2, false⟩

/-- Top-level spread merge `{ ...a, ...b }`, allocating one fresh object. -/
def mergeSpread (a b : JVal) (fresh : Nat) : JVal × Nat :=
  let base := spreadPairs a
  (.vobj fresh (overlay base (spreadPairs b)), fresh + 1)
where
  overlay : JFields → JFields → JFields
    | acc, .nil => acc
    | acc, .cons k v r => overlay (acc.set k v) r

/-- The new baseline of `reset`:
`values ? { ...this.initialValues, ...values } : this.initialValues`. -/
def resetBase (e : Engine) (ov : Option JVal) : JVal × Nat :=
  match ov with
  | some v => if truthy v then mergeSpread e.initialValues v e.fresh else (e.initialValues, e.fresh)
  | none => (e.initialValues, e.fresh)

/-- `reset(values?)`: rebase `initialValues` (merging overrides when the
argument is truthy), deep-copy into both slots, wipe the field cache, zero the
status, clear storage (unguarded — a throwing `removeItem` aborts before the
form notification), then notify the form channel once. -/
def reset (e : Engine) (ov : Option JVal) : OpResult :=
  let bs := resetBase e ov
  let ci := deepClone bs.1 bs.2
  let cv := deepClone ci.1 ci.2
  let e := { e with initialValues := ci.1, values := cv.1,
                    fields := [], status := initialStatus, fresh := cv.2 }
  let cs := clearStorage e
  if cs.2 then ⟨e, cs.1, true⟩
  else ⟨e, cs.1 ++ [.formNotify e.status], false⟩

/-- The touch-all loop of `handleSubmit`: marks every tracked path touched,
notifying those that changed. -/
def touchAll (listeners : List String) :
    List (String × FieldState) → List (String × FieldState) × List Event
  | [] => ([], [])
  | (p, st) :: rest =>
    let r := touchAll listeners rest
    if st.isTouched then ((p, st) :: r.1, r.2)
    else
      let st' := { st with isTouched := true }
      ((p, st') :: r.1,
       (if p ∈ listeners then [Event.fieldNotify p st'] else []) ++ r.2)

/-- First phase of `handleSubmit`: raise `isSubmitting`, bump `submitCount`,
notify the form channel, then touch every tracked field. -/
def submitTouched (e : Engine) : Engine × List Event :=
  let e1 := { e with status := { e.status with isSubmitting := true,
                                               submitCount := e.status.submitCount + 1 } }
  let ta := touchAll e1.fieldListeners e1.fields
  ({ e1 with fields := ta.1 }, [Event.formNotify e1.status] ++ ta.2)

/-- `handleSubmit(onValid, onInvalid?)`.  The callbacks are represented by
whether they throw (synchronously or as a rejected awaited promise) on the
argument they receive; the `catch` block logs and swallows, the `finally`
block restores `isSubmitting` and notifies the form channel. -/
def handleSubmit (e : Engine) (onValidThrows : JVal → Bool)
    (onInvalid : Option (ErrMap → Bool)) : OpResult :=
  let st := submitTouched e
  let va := validateAll st.1
  let e2 := va.1
  let cb :=
    if va.2.2 then ([Event.onValidCall e2.values], onValidThrows e2.values)
    else
      match onInvalid with
      | some f => ([Event.onInvalidCall e2.status.errors], f e2.status.errors)
      | none => (([] : List Event), false)
  let evsE := if cb.2 then [Event.logError] else []
  let e3 := { e2 with status := { e2.status with isSubmitting := false } }
  ⟨e3, st.2 ++ va.2.1 ++ cb.1 ++ evsE ++ [.formNotify e3.status], false⟩

/-- `subscribeToField(path, listener)`: registers the listener (the path now
has a listener set) and immediately invokes it with the lazily-created current
field state. -/
def subscribeToField (e : Engine) (path : String) : Engine × List Event :=
  let e := if path ∈ e.fieldListeners then e else { e with fieldListeners := e.fieldListeners ++ [path] }
  let gf := getFieldState e path
  (gf.1, [.fieldNotify path gf.2])

/-- `loadFromStorage()` (called during construction): everything under
`try/catch`; a synchronous `getItem` result that is a non-empty string is
parsed and shallow-merged over `initialValues` via `setFullValues`; a
returned promise defers the merge past the synchronous construction (its
rejection is routed to `.catch`); throws and parse errors are logged. -/
def loadFromStorage (e : Engine) : Engine × List Event :=
  match e.storage with
  | none => (e, [])
  | some st =>
    let key := getStorageKey e.config
    match st.getItem key with
    | .thrown => (e, [.storageGet key, .logWarn])
    | .pending => (e, [.storageGet key])
    | .ok none => (e, [.storageGet key])
    | .ok (some s) =>
      if s = "" then (e, [.storageGet key])
      else
        match jsonParse s e.fresh with
        | none => (e, [.storageGet key, .logWarn])
        | some (parsed, f1) =>
          let ms := mergeSpread e.initialValues parsed f1
          let r := setFullValues { e with fresh := ms.2 } ms.1
          (r.engine, .storageGet key :: r.events)

/-- The constructor: deep-copies `initialValues` into both slots (two
independent clones of `config.initialValues`), attempts the storage load, and
runs an initial validation pass only in `all` mode.  `fresh0` seeds the
identity-tag allocator (fresh allocations in a running program never collide
with existing objects). -/
def construct (cfg : FormConfig) (fresh0 : Nat) : OpResult :=
  let ci := deepClone cfg.initialValues fresh0
  let cv := deepClone cfg.initialValues ci.2
  let e : Engine :=
    { config := cfg, storage := cfg.storage, initialValues := ci.1, values := cv.1,
      fields := [], status := initialStatus, fieldListeners := [], fresh := cv.2 }
  let lf := loadFromStorage e
  let e := lf.1
  if cfg.mode = some .all then
    let va := validateAll e
    ⟨va.1, lf.2 ++ va.2.1, false⟩
  else ⟨e, lf.2, false⟩

/-! ## Frame lemmas: which parts of the engine each helper touches -/

@[simp] theorem getFieldState_fst_config (e : Engine) (p : String) :
    (getFieldState e p).1.config = e.config := by
  unfold getFieldState; split <;> rfl

@[simp] theorem getFieldState_fst_storage (e : Engine) (p : String) :
    (getFieldState e p).1.storage = e.storage := by
  unfold getFieldState; split <;> rfl

@[simp] theorem getFieldState_fst_values (e : Engine) (p : String) :
    (getFieldState e p).1.values = e.values := by
  unfold getFieldState; split <;> rfl

@[simp] theorem getFieldState_fst_initialValues (e : Engine) (p : String) :
    (getFieldState e p).1.initialValues = e.initialValues := by
  unfold getFieldState; split <;> rfl

@[simp] theorem getFieldState_fst_status (e : Engine) (p : String) :
    (getFieldState e p).1.status = e.status := by
  unfold getFieldState; split <;> rfl

@[simp] theorem getFieldState_fst_fieldListeners (e : Engine) (p : String) :
    (getFieldState e p).1.fieldListeners = e.fieldListeners := by
  unfold getFieldState; split <;> rfl

@[simp] theorem notifyField_fst_config (e : Engine) (p : String) :
    (notifyField e p).1.config = e.config := by
  unfold notifyField; split <;> simp

@[simp] theorem notifyField_fst_storage (e : Engine) (p : String) :
    (notifyField e p).1.storage = e.storage := by
  unfold notifyField; split <;> simp

@[simp] theorem notifyField_fst_values (e : Engine) (p : String) :
    (notifyField e p).1.values = e.values := by
  unfold notifyField; split <;> simp

@[simp] theorem notifyField_fst_initialValues (e : Engine) (p : String) :
    (notifyField e p).1.initialValues = e.initialValues := by
  unfold notifyField; split <;> simp

@[simp] theorem notifyField_fst_status (e : Engine) (p : String) :
    (notifyField e p).1.status = e.status := by
  unfold notifyField; split <;> simp

@[simp] theorem validateAll_fst_config (e : Engine) :
    (validateAll e).1.config = e.config := by
  simp only [validateAll]; split <;> rfl

@[simp] theorem validateAll_fst_storage (e : Engine) :
    (validateAll e).1.storage = e.storage := by
  simp only [validateAll]; split <;> rfl

@[simp] theorem validateAll_fst_values (e : Engine) :
    (validateAll e).1.values = e.values := by
  simp only [validateAll]; split <;> rfl

@[simp] theorem validateAll_fst_initialValues (e : Engine) :
    (validateAll e).1.initialValues = e.initialValues := by
  simp only [validateAll]; split <;> rfl

@[simp] theorem validateAll_fst_fieldListeners (e : Engine) :
    (validateAll e).1.fieldListeners = e.fieldListeners := by
  simp only [validateAll]; split <;> rfl

@[simp] theorem validateAll_fst_submitCount (e : Engine) :
    (validateAll e).1.status.submitCount = e.status.submitCount := by
  simp only [validateAll]; split <;> rfl

@[simp] theorem validateAll_fst_isSubmitting (e : Engine) :
    (validateAll e).1.status.isSubmitting = e.status.isSubmitting := by
  simp only [validateAll]; split <;> rfl

@[simp] theorem setValueCore_fst_config (e : Engine) (p : String) (v : JVal) :
    (setValueCore e p v).1.config = e.config := by
  simp only [setValueCore]; simp

@[simp] theorem setValueCore_fst_storage (e : Engine) (p : String) (v : JVal) :
    (setValueCore e p v).1.storage = e.storage := by
  simp only [setValueCore]; simp

@[simp] theorem setValueCore_fst_initialValues (e : Engine) (p : String) (v : JVal) :
    (setValueCore e p v).1.initialValues = e.initialValues := by
  simp only [setValueCore]; simp

@[simp] theorem setValueCore_fst_status (e : Engine) (p : String) (v : JVal) :
    (setValueCore e p v).1.status = e.status := by
  simp only [setValueCore]; simp

@[simp] theorem setValueCore_fst_fieldListeners (e : Engine) (p : String) (v : JVal) :
    (setValueCore e p v).1.fieldListeners = e.fieldListeners := by
  simp only [setValueCore]; simp

@[simp] theorem updateIsDirty_config (e : Engine) :
    (updateIsDirty e).config = e.config := by
  simp only [updateIsDirty]; split <;> rfl

@[simp] theorem updateIsDirty_storage (e : Engine) :
    (updateIsDirty e).storage = e.storage := by
  simp only [updateIsDirty]; split <;> rfl

@[simp] theorem updateIsDirty_values (e : Engine) :
    (updateIsDirty e).values = e.values := by
  simp only [updateIsDirty]; split <;> rfl

@[simp] theorem updateIsDirty_initialValues (e : Engine) :
    (updateIsDirty e).initialValues = e.initialValues := by
  simp only [updateIsDirty]; split <;> rfl

@[simp] theorem updateIsDirty_fields (e : Engine) :
    (updateIsDirty e).fields = e.fields := by
  simp only [updateIsDirty]; split <;> rfl

@[simp] theorem updateIsDirty_fieldListeners (e : Engine) :
    (updateIsDirty e).fieldListeners = e.fieldListeners := by
  simp only [updateIsDirty]; split <;> rfl

@[simp] theorem ite_prod_fst {α β : Type} (c : Prop) [Decidable c] (a b : α × β) :
    (if c then a else b).1 = if c then a.1 else b.1 := by
  split <;> rfl

@[simp] theorem ite_prod_snd {α β : Type} (c : Prop) [Decidable c] (a b : α × β) :
    (if c then a else b).2 = if c then a.2 else b.2 := by
  split <;> rfl

@[simp] theorem ite_engine_config (c : Prop) [Decidable c] (a b : Engine) :
    (if c then a else b).config = if c then a.config else b.config := by
  split <;> rfl

@[simp] theorem ite_engine_storage (c : Prop) [Decidable c] (a b : Engine) :
    (if c then a else b).storage = if c then a.storage else b.storage := by
  split <;> rfl

@[simp] theorem ite_engine_values (c : Prop) [Decidable c] (a b : Engine) :
    (if c then a else b).values = if c then a.values else b.values := by
  split <;> rfl

@[simp] theorem ite_engine_initialValues (c : Prop) [Decidable c] (a b : Engine) :
    (if c then a else b).initialValues = if c then a.initialValues else b.initialValues := by
  split <;> rfl

@[simp] theorem ite_engine_fields (c : Prop) [Decidable c] (a b : Engine) :
    (if c then a else b).fields = if c then a.fields else b.fields := by
  split <;> rfl

@[simp] theorem ite_engine_fieldListeners (c : Prop) [Decidable c] (a b : Engine) :
    (if c then a else b).fieldListeners = if c then a.fieldListeners else b.fieldListeners := by
  split <;> rfl

/-! ## Concrete fixtures used by the claims -/

/-- Does the event list contain a field notification for `path`? -/
def notifiesField (evs : List Event) (path : String) : Bool :=
  evs.any fun ev =>
    match ev with
    | .fieldNotify p _ => p = path
    | _ => false

def countFormNotify (evs : List Event) : Nat :=
  (evs.filter fun ev => match ev with | .formNotify _ => true | _ => false).length

def countFieldNotify (evs : List Event) : Nat :=
  (evs.filter fun ev => match ev with | .fieldNotify _ _ => true | _ => false).length

/-- The validator of the spec scenarios: flags `age < 18`. -/
def ageValidator : JVal → ErrMap := fun v =>
  match getByPath v "age" with
  | .vnum n => if n < 18 then [("age", some "Too young")] else []
  | _ => []

/-- `{name: 'Alice', age: 25}`. -/
def aliceTree : JVal :=
  .vobj 0 (.cons "name" (.vstr "Alice") (.cons "age" (.vnum 25) .nil))

def cfgOnChange : FormConfig :=
  { initialValues := aliceTree, mode := some .onChange, validate := some ageValidator,
    onChangePresent := false, storage := none, storageKey := none }

def cfgOnBlur : FormConfig :=
  { initialValues := .vobj 0 (.cons "age" (.vnum 10) .nil), mode := some .onBlur,
    validate := some ageValidator, onChangePresent := false, storage := none, storageKey := none }

/-- `{a: {b: {c: 1}}}`. -/
def abcTree : JVal :=
  .vobj 0 (.cons "a" (.vobj 1 (.cons "b" (.vobj 2 (.cons "c" (.vnum 1) .nil)) .nil)) .nil)

def cfgAbc : FormConfig :=
  { initialValues := abcTree, mode := none, validate := none,
    onChangePresent := false, storage := none, storageKey := none }

def engineAbc : Engine := (construct cfgAbc 10).engine

/-- A well-behaved storage backend. -/
def okStorage : FormStorage :=
  { getItem := fun _ => .ok none, setItem := fun _ _ => .ok (), removeItem := fun _ => .ok () }

/-- A backend whose writes and removes throw synchronously. -/
def throwingStorage : FormStorage :=
  { getItem := fun _ => .ok none, setItem := fun _ _ => .thrown, removeItem := fun _ => .thrown }

/-- `{name: 'Alice'}` with an explicit `storageKey` the engine is supposed to
honour. -/
def cfgKeyed : FormConfig :=
  { initialValues := .vobj 0 (.cons "name" (.vstr "Alice") .nil), mode := none, validate := none,
    onChangePresent := false, storage := some okStorage, storageKey := some "test-form" }

def engineKeyed : Engine := (construct cfgKeyed 10).engine

def cfgThrowing : FormConfig :=
  { initialValues := .vobj 0 (.cons "name" (.vstr "Alice") .nil), mode := none, validate := none,
    onChangePresent := false, storage := some throwingStorage, storageKey := none }

def engineThrowing : Engine := (construct cfgThrowing 10).engine

/-! ## C3 — no-op short-circuit of `setValue` -/

/-- C3: when the written value is `deepEqual` to the current value at the
path, `setValue` is a complete no-op: the engine state is returned unchanged
(no value change, no cache update, no validation, no persistence) and no event
of any kind — per-path or whole-form notification, storage call, log — is
emitted.  In particular a second `setValue` with the same value adds no second
notification cycle. -/
theorem setValue_noop_when_deepEqual (e : Engine) (path : String) (v : JVal)
    (h : deepEqual (getByPath e.values path) v = true) :
    setValue e path v = ⟨e, [], false⟩ := by
  unfold setValue
  simp [h]

/-- Witness for `setValue_noop_when_deepEqual`: after `setValue("a.b.c", 2)`
has taken effect, writing `2` again is a no-op. -/
theorem setValue_noop_when_deepEqual_witness :
    deepEqual (getByPath (setValue engineAbc "a.b.c" (.vnum 2)).engine.values "a.b.c") (.vnum 2) = true ∧
    setValue (setValue engineAbc "a.b.c" (.vnum 2)).engine "a.b.c" (.vnum 2) =
      ⟨(setValue engineAbc "a.b.c" (.vnum 2)).engine, [], false⟩ :=
  ⟨by decide, setValue_noop_when_deepEqual _ _ _ (by decide)⟩

/-! ## C8 — validation-mode gating -/

/-- C8: with `{name:'Alice', age:25}`, mode `onChange` and the `age<18`
validator, `setValue('age', 12)` makes the form invalid with `errors.age` set
and the field error present, and `setValue('age', 20)` restores validity with
`errors.age` absent; with `{age:10}` and mode `onBlur`, `setValue('age', 12)`
leaves the field error absent and only `setBlur('age')` makes it present. -/
theorem validation_mode_gates_errors :
    ((getFormStatus (setValue (construct cfgOnChange 10).engine "age" (.vnum 12)).engine).isValid = false ∧
     lookupErr (getFormStatus (setValue (construct cfgOnChange 10).engine "age" (.vnum 12)).engine).errors "age" = some "Too young" ∧
     (getFormStatus (setValue (setValue (construct cfgOnChange 10).engine "age" (.vnum 12)).engine "age" (.vnum 20)).engine).isValid = true ∧
     lookupErr (getFormStatus (setValue (setValue (construct cfgOnChange 10).engine "age" (.vnum 12)).engine "age" (.vnum 20)).engine).errors "age" = none) ∧
    ((getFieldState (setValue (construct cfgOnBlur 10).engine "age" (.vnum 12)).engine "age").2.error = none ∧
     (getFieldState (setBlur (setValue (construct cfgOnBlur 10).engine "age" (.vnum 12)).engine "age").engine "age").2.error = some "Too young") := by
  decide

/-! ## C10 — `getValues` returns the live tree by reference -/

def engineX : Engine :=
  (construct { initialValues := .vobj 0 (.cons "x" (.vnum 1) .nil), mode := none,
               validate := none, onChangePresent := false, storage := none,
               storageKey := none } 10).engine

def engineXTracked : Engine := (subscribeToField engineX "x").1

/-- C10: `getValues()` hands out the internal `currentValues` tree itself —
the returned reference has the same identity as the store's tree (no copy) —
so an external in-place assignment through that reference (modelled by
`mutateObjAt` at the returned reference's identity) is visible in every
subsequent `getValue`/`getValues` read, actually changes the tree, and
triggers neither a notification nor any field-state/dirty update: the cached
state for the tracked path `"x"` still carries the old value and
`isDirty = false` afterwards. -/
theorem getValues_returns_live_reference :
    jseq (getValues engineXTracked) engineXTracked.values = true ∧
    rootIdOf (getValues engineXTracked) = rootIdOf engineXTracked.values ∧
    getByPath (mutateObjAt engineXTracked.values (rootIdOf (getValues engineXTracked)) "x" (.vnum 99)) "x" = .vnum 99 ∧
    mutateObjAt engineXTracked.values (rootIdOf (getValues engineXTracked)) "x" (.vnum 99) ≠ engineXTracked.values ∧
    (mapGet engineXTracked.fields "x").map (fun st => (st.value, st.isDirty)) = some (.vnum 1, false) := by
  decide

/-! ## C2 — the field-level dirty invariant (counterexample) -/

def engineTrackingAbc : Engine := (getFieldState engineAbc "a.b.c").1

/-- Counterexample to C2 as stated: `setFullValues` (a public operation, also
reached by storage loads) replaces the tree without recomputing tracked field
records, so afterwards the cached dirty flag of the already-tracked path
`"a.b.c"` is `false` while
`!deepEqual(currentValues at "a.b.c", initialValues at "a.b.c")` is `true`. -/
theorem setFullValues_breaks_dirty_invariant :
    ((mapGet (setFullValues engineTrackingAbc
        (.vobj 200 (.cons "a" (.vobj 201 (.cons "b" (.vobj 202 (.cons "c" (.vnum 9) .nil)) .nil)) .nil))).engine.fields
        "a.b.c").map (·.isDirty) = some false) ∧
    deepEqual
      (getByPath (setFullValues engineTrackingAbc
        (.vobj 200 (.cons "a" (.vobj 201 (.cons "b" (.vobj 202 (.cons "c" (.vnum 9) .nil)) .nil)) .nil))).engine.values "a.b.c")
      (getByPath (setFullValues engineTrackingAbc
        (.vobj 200 (.cons "a" (.vobj 201 (.cons "b" (.vobj 202 (.cons "c" (.vnum 9) .nil)) .nil)) .nil))).engine.initialValues "a.b.c")
      = false := by
  decide

/-! ## C4 — storage failure handling (counterexample) -/

/-- Counterexample to C4 as stated: `clearStorage` calls `removeItem` without
a `try/catch`, so with a backend whose `removeItem` throws synchronously,
`reset()` does NOT complete normally — the exception propagates to the caller
(and the form notification that should follow is never emitted). -/
theorem reset_propagates_removeItem_throw :
    (reset engineThrowing none).thrown = true ∧
    countFormNotify (reset engineThrowing none).events = 0 := by
  decide

/-! ## C5 — configured `storageKey` (counterexample) -/

/-- Counterexample to C5 as stated: with `storageKey: "test-form"` configured,
the save performed by `setValue` still uses the derived key
`ghost-form-16` (16 is the length of `JSON.stringify({"name":"Alice"})`), not
the configured key: `getStorageKey` never consults `config.storageKey`. -/
theorem storageKey_config_ignored :
    cfgKeyed.storageKey = some "test-form" ∧
    (setValue engineKeyed "name" (.vstr "Bob")).events.any
      (fun ev => match ev with | .storageSet k _ => k = "test-form" | _ => false) = false ∧
    (setValue engineKeyed "name" (.vstr "Bob")).events.any
      (fun ev => match ev with | .storageSet k _ => k = "ghost-form-16" | _ => false) = true := by
  decide

/-! ## C4 amended — which storage operations are guarded -/

/-- Whether the backend's `removeItem` would throw synchronously for this
engine's storage key. -/
def removeThrowsSync (e : Engine) : Bool :=
  match e.storage with
  | none => false
  | some st => st.removeItem (getStorageKey e.config) == .thrown

/-- C4 amended: storage read failures (construction-time `getItem`/parse,
caught and logged) and write failures (`setItem` in the saves performed by
`setValue`/`setFullValues`, caught and logged) never propagate to the caller,
and rejected promises never surface synchronously; but the remove performed by
`reset` is unguarded — `reset` throws exactly when the backend's `removeItem`
throws synchronously. -/
theorem storage_failures_recovered_except_remove :
    (∀ cfg f0, (construct cfg f0).thrown = false) ∧
    (∀ e p v, (setValue e p v).thrown = false) ∧
    (∀ e nv, (setFullValues e nv).thrown = false) ∧
    (∀ e ov, (reset e ov).thrown = removeThrowsSync e) := by
  refine ⟨fun cfg f0 => ?_, fun e p v => ?_, fun e nv => rfl, fun e ov => ?_⟩
  · simp only [construct]; split <;> rfl
  · simp only [setValue]; split <;> rfl
  · simp only [reset, clearStorage, removeThrowsSync]
    cases hs : e.storage with
    | none => simp [hs]
    | some st =>
      simp only [hs]
      cases hr : st.removeItem (getStorageKey e.config) <;> simp [hr]

/-! ## C5 amended — every storage operation uses the derived key -/

/-- The keys of the storage calls recorded in an event list. -/
def storageKeysOf : List Event → List String
  | [] => []
  | ev :: rest =>
    match ev with
    | .storageGet k => k :: storageKeysOf rest
    | .storageSet k _ => k :: storageKeysOf rest
    | .storageRemove k => k :: storageKeysOf rest
    | _ => storageKeysOf rest

theorem storageKeysOf_append (a b : List Event) :
    storageKeysOf (a ++ b) = storageKeysOf a ++ storageKeysOf b := by
  induction a with
  | nil => rfl
  | cons ev rest ih => cases ev <;> simp [storageKeysOf, ih]

theorem storageKeysOf_syncEntries (vals init : JVal) (ls : List String) (t : String)
    (l : List (String × FieldState)) : storageKeysOf (syncEntries vals init ls t l).2 = [] := by
  induction l with
  | nil => rfl
  | cons hd tl ih =>
    obtain ⟨p, st⟩ := hd
    simp only [syncEntries]
    split
    · exact ih
    · split
      · split <;> simp [storageKeysOf, ih]
      · exact ih

theorem storageKeysOf_valFields (errors : ErrMap) (ls : List String)
    (l : List (String × FieldState)) : storageKeysOf (valFields errors ls l).2 = [] := by
  induction l with
  | nil => rfl
  | cons hd tl ih =>
    obtain ⟨p, st⟩ := hd
    simp only [valFields]
    split
    · split <;> simp [storageKeysOf, ih]
    · exact ih

theorem storageKeysOf_touchAll (ls : List String) (l : List (String × FieldState)) :
    storageKeysOf (touchAll ls l).2 = [] := by
  induction l with
  | nil => rfl
  | cons hd tl ih =>
    obtain ⟨p, st⟩ := hd
    simp only [touchAll]
    split
    · exact ih
    · split <;> simp [storageKeysOf, ih]

theorem storageKeysOf_notifyField (e : Engine) (p : String) :
    storageKeysOf (notifyField e p).2 = [] := by
  unfold notifyField; split <;> rfl

theorem storageKeysOf_setValueCore (e : Engine) (p : String) (v : JVal) :
    storageKeysOf (setValueCore e p v).2 = [] := by
  simp only [setValueCore]
  exact storageKeysOf_syncEntries ..

theorem storageKeysOf_notifyAllFields (e : Engine) (ps : List String) :
    storageKeysOf (notifyAllFields e ps).2 = [] := by
  induction ps generalizing e with
  | nil => rfl
  | cons p rest ih =>
    simp [notifyAllFields, storageKeysOf_append, storageKeysOf_notifyField, ih]

theorem storageKeysOf_validateAll (e : Engine) :
    storageKeysOf (validateAll e).2.1 = [] := by
  simp only [validateAll]
  split <;> exact storageKeysOf_valFields ..

theorem saveToStorage_key_mem (e : Engine) (x : String)
    (hx : x ∈ storageKeysOf (saveToStorage e)) : x = getStorageKey e.config := by
  simp only [saveToStorage] at hx
  split at hx
  · simp [storageKeysOf] at hx
  · split at hx <;> simp [storageKeysOf] at hx <;> exact hx

theorem clearStorage_key_mem (e : Engine) (x : String)
    (hx : x ∈ storageKeysOf (clearStorage e).1) : x = getStorageKey e.config := by
  simp only [clearStorage] at hx
  split at hx
  · simp [storageKeysOf] at hx
  · split at hx <;> simp [storageKeysOf] at hx <;> exact hx

theorem setFullValues_key_mem (e : Engine) (nv : JVal) (x : String)
    (hx : x ∈ storageKeysOf (setFullValues e nv).events) : x = getStorageKey e.config := by
  simp only [setFullValues, storageKeysOf_append, List.mem_append,
    storageKeysOf_validateAll, storageKeysOf_notifyAllFields, storageKeysOf,
    List.not_mem_nil, false_or, or_false] at hx
  have h := saveToStorage_key_mem _ _ hx
  simpa using h

theorem loadFromStorage_key_mem (e : Engine) (x : String)
    (hx : x ∈ storageKeysOf (loadFromStorage e).2) : x = getStorageKey e.config := by
  simp only [loadFromStorage] at hx
  split at hx
  · simp [storageKeysOf] at hx
  · split at hx
    · simp [storageKeysOf] at hx; exact hx
    · simp [storageKeysOf] at hx; exact hx
    · simp [storageKeysOf] at hx; exact hx
    · split at hx
      · simp [storageKeysOf] at hx; exact hx
      · split at hx
        · simp [storageKeysOf] at hx; exact hx
        · simp only [storageKeysOf, List.mem_cons] at hx
          rcases hx with hx | hx
          · exact hx
          · have h := setFullValues_key_mem _ _ _ hx
            simpa using h

/-- C5 amended: every storage operation the store performs — the load at
construction, the save after `setValue`/`setFullValues`, the remove on
`reset` — uses the key derived from the length of the serialized initial
values (`ghost-form-<n>`); `getStorageKey` ignores a configured `storageKey`
entirely, so this holds whether or not one is supplied. -/
theorem derived_key_used_for_storage :
    (∀ cfg f0, (storageKeysOf (construct cfg f0).events).all (· == getStorageKey cfg) = true) ∧
    (∀ e p v, (storageKeysOf (setValue e p v).events).all (· == getStorageKey e.config) = true) ∧
    (∀ e nv, (storageKeysOf (setFullValues e nv).events).all (· == getStorageKey e.config) = true) ∧
    (∀ e ov, (storageKeysOf (reset e ov).events).all (· == getStorageKey e.config) = true) := by
  refine ⟨fun cfg f0 => ?_, fun e p v => ?_, fun e nv => ?_, fun e ov => ?_⟩
  · rw [List.all_eq_true]
    intro x hx
    rw [beq_iff_eq]
    simp only [construct] at hx
    split at hx <;>
      simp only [storageKeysOf_append, List.mem_append, storageKeysOf_validateAll,
        List.not_mem_nil, or_false] at hx <;>
      · have h := loadFromStorage_key_mem _ _ hx
        simpa using h
  · rw [List.all_eq_true]
    intro x hx
    rw [beq_iff_eq]
    simp only [setValue] at hx
    split at hx
    · simp [storageKeysOf] at hx
    · simp only [storageKeysOf_append, List.mem_append, storageKeysOf_setValueCore,
        storageKeysOf_notifyField, storageKeysOf, List.not_mem_nil, false_or, or_false] at hx
      rcases hx with hx | hx
      · split at hx
        · rw [storageKeysOf_validateAll] at hx; simp at hx
        · simp [storageKeysOf] at hx
      · have h := saveToStorage_key_mem _ _ hx
        simpa using h
  · rw [List.all_eq_true]
    intro x hx
    rw [beq_iff_eq]
    exact setFullValues_key_mem _ _ _ hx
  · rw [List.all_eq_true]
    intro x hx
    rw [beq_iff_eq]
    simp only [reset] at hx
    split at hx
    · have h := clearStorage_key_mem _ _ hx
      simpa using h
    · simp only [storageKeysOf_append, List.mem_append, storageKeysOf,
        List.not_mem_nil, or_false] at hx
      have h := clearStorage_key_mem _ _ hx
      simpa using h

/-! ## C7 — the `handleSubmit` contract -/

def allTouched (l : List (String × FieldState)) : Bool := l.all (·.2.isTouched)

def isFieldNotify : Event → Bool
  | .fieldNotify _ _ => true
  | _ => false

/-- Does the event list record an `onValid(values)` invocation with this exact
argument? -/
def hasOnValidCall (evs : List Event) (v : JVal) : Bool :=
  evs.any fun ev => match ev with | .onValidCall w => w == v | _ => false

def hasOnInvalidCall (evs : List Event) (er : ErrMap) : Bool :=
  evs.any fun ev => match ev with | .onInvalidCall d => d == er | _ => false

def hasLogError (evs : List Event) : Bool :=
  evs.any fun ev => match ev with | .logError => true | _ => false

theorem touchAll_allTouched (ls : List String) (l : List (String × FieldState)) :
    allTouched (touchAll ls l).1 = true := by
  induction l with
  | nil => rfl
  | cons hd tl ih =>
    obtain ⟨p, st⟩ := hd
    simp only [touchAll]
    split
    · rename_i ht
      simp [allTouched, ht]
      simpa [allTouched] using ih
    · simp [allTouched]
      simpa [allTouched] using ih

theorem valFields_preserves_touched (errors : ErrMap) (ls : List String)
    (l : List (String × FieldState)) (h : allTouched l = true) :
    allTouched (valFields errors ls l).1 = true := by
  induction l with
  | nil => rfl
  | cons hd tl ih =>
    obtain ⟨p, st⟩ := hd
    simp only [allTouched, List.all_cons, Bool.and_eq_true] at h
    simp only [valFields]
    split
    · simp only [allTouched, List.all_cons, Bool.and_eq_true]
      exact ⟨h.1, ih h.2⟩
    · simp only [allTouched, List.all_cons, Bool.and_eq_true]
      exact ⟨h.1, ih h.2⟩

theorem validateAll_preserves_touched (e : Engine) (h : allTouched e.fields = true) :
    allTouched (validateAll e).1.fields = true := by
  simp only [validateAll]
  split <;> (apply valFields_preserves_touched; split <;> exact h)

theorem touchAll_events_fieldNotify (ls : List String) (l : List (String × FieldState)) :
    ((touchAll ls l).2).all isFieldNotify = true := by
  induction l with
  | nil => rfl
  | cons hd tl ih =>
    obtain ⟨p, st⟩ := hd
    simp only [touchAll]
    split
    · exact ih
    · split <;> simpa [isFieldNotify] using ih

theorem valFields_events_fieldNotify (errors : ErrMap) (ls : List String)
    (l : List (String × FieldState)) :
    ((valFields errors ls l).2).all isFieldNotify = true := by
  induction l with
  | nil => rfl
  | cons hd tl ih =>
    obtain ⟨p, st⟩ := hd
    simp only [valFields]
    split
    · split <;> simpa [isFieldNotify] using ih
    · exact ih

theorem validateAll_events_fieldNotify (e : Engine) :
    ((validateAll e).2.1).all isFieldNotify = true := by
  simp only [validateAll]
  split <;> exact valFields_events_fieldNotify ..

theorem hasOnValidCall_false_of_fieldNotify (evs : List Event) (v : JVal)
    (h : evs.all isFieldNotify = true) : hasOnValidCall evs v = false := by
  induction evs with
  | nil => rfl
  | cons ev rest ih =>
    rw [List.all_cons, Bool.and_eq_true] at h
    have h2 := ih h.2
    have h1 := h.1
    cases ev <;>
      first
        | (simpa [hasOnValidCall] using h2)
        | (simp [isFieldNotify] at h1)

theorem hasOnInvalidCall_false_of_fieldNotify (evs : List Event) (er : ErrMap)
    (h : evs.all isFieldNotify = true) : hasOnInvalidCall evs er = false := by
  induction evs with
  | nil => rfl
  | cons ev rest ih =>
    rw [List.all_cons, Bool.and_eq_true] at h
    have h2 := ih h.2
    have h1 := h.1
    cases ev <;>
      first
        | (simpa [hasOnInvalidCall] using h2)
        | (simp [isFieldNotify] at h1)

theorem hasLogError_false_of_fieldNotify (evs : List Event)
    (h : evs.all isFieldNotify = true) : hasLogError evs = false := by
  induction evs with
  | nil => rfl
  | cons ev rest ih =>
    rw [List.all_cons, Bool.and_eq_true] at h
    have h2 := ih h.2
    have h1 := h.1
    cases ev <;>
      first
        | (simpa [hasLogError] using h2)
        | (simp [isFieldNotify] at h1)

@[simp] theorem validateAll_trd (e : Engine) :
    (validateAll e).2.2 = (validateAll e).1.status.isValid := by
  simp only [validateAll]

@[simp] theorem hasOnValidCall_append (a b : List Event) (v : JVal) :
    hasOnValidCall (a ++ b) v = (hasOnValidCall a v || hasOnValidCall b v) := by
  simp [hasOnValidCall, List.any_append]

@[simp] theorem hasOnInvalidCall_append (a b : List Event) (er : ErrMap) :
    hasOnInvalidCall (a ++ b) er = (hasOnInvalidCall a er || hasOnInvalidCall b er) := by
  simp [hasOnInvalidCall, List.any_append]

@[simp] theorem hasLogError_append (a b : List Event) :
    hasLogError (a ++ b) = (hasLogError a || hasLogError b) := by
  simp [hasLogError, List.any_append]

@[simp] theorem hasOnValidCall_touchAll (ls : List String) (l : List (String × FieldState)) (v : JVal) :
    hasOnValidCall (touchAll ls l).2 v = false :=
  hasOnValidCall_false_of_fieldNotify _ _ (touchAll_events_fieldNotify ls l)

@[simp] theorem hasOnInvalidCall_touchAll (ls : List String) (l : List (String × FieldState)) (er : ErrMap) :
    hasOnInvalidCall (touchAll ls l).2 er = false :=
  hasOnInvalidCall_false_of_fieldNotify _ _ (touchAll_events_fieldNotify ls l)

@[simp] theorem hasLogError_touchAll (ls : List String) (l : List (String × FieldState)) :
    hasLogError (touchAll ls l).2 = false :=
  hasLogError_false_of_fieldNotify _ (touchAll_events_fieldNotify ls l)

@[simp] theorem hasOnValidCall_validateAll (e : Engine) (v : JVal) :
    hasOnValidCall (validateAll e).2.1 v = false :=
  hasOnValidCall_false_of_fieldNotify _ _ (validateAll_events_fieldNotify e)

@[simp] theorem hasOnInvalidCall_validateAll (e : Engine) (er : ErrMap) :
    hasOnInvalidCall (validateAll e).2.1 er = false :=
  hasOnInvalidCall_false_of_fieldNotify _ _ (validateAll_events_fieldNotify e)

@[simp] theorem hasLogError_validateAll (e : Engine) :
    hasLogError (validateAll e).2.1 = false :=
  hasLogError_false_of_fieldNotify _ (validateAll_events_fieldNotify e)

@[simp] theorem hasOnValidCall_iteLog (c : Prop) [Decidable c] (v : JVal) :
    hasOnValidCall (if c then [Event.logError] else []) v = false := by
  split <;> rfl

@[simp] theorem hasOnInvalidCall_iteLog (c : Prop) [Decidable c] (er : ErrMap) :
    hasOnInvalidCall (if c then [Event.logError] else []) er = false := by
  split <;> rfl

@[simp] theorem hasLogError_iteLog (c : Prop) [Decidable c] :
    hasLogError (if c then [Event.logError] else []) = (if c then true else false) := by
  split <;> rfl

@[simp] theorem hasOnValidCall_cons (ev : Event) (rest : List Event) (v : JVal) :
    hasOnValidCall (ev :: rest) v =
      ((match ev with | Event.onValidCall w => w == v | _ => false) || hasOnValidCall rest v) := rfl

@[simp] theorem hasOnInvalidCall_cons (ev : Event) (rest : List Event) (er : ErrMap) :
    hasOnInvalidCall (ev :: rest) er =
      ((match ev with | Event.onInvalidCall d => d == er | _ => false) || hasOnInvalidCall rest er) := rfl

@[simp] theorem hasLogError_cons (ev : Event) (rest : List Event) :
    hasLogError (ev :: rest) =
      ((match ev with | Event.logError => true | _ => false) || hasLogError rest) := rfl

@[simp] theorem hasOnValidCall_nil (v : JVal) : hasOnValidCall [] v = false := rfl

@[simp] theorem hasOnInvalidCall_nil (er : ErrMap) : hasOnInvalidCall [] er = false := rfl

@[simp] theorem hasLogError_nil : hasLogError [] = false := rfl

@[simp] theorem hasOnValidCall_single (v : JVal) :
    hasOnValidCall [Event.onValidCall v] v = true := by
  simp [hasOnValidCall]

@[simp] theorem hasOnValidCall_formNotify (st : FormStatus) (v : JVal) :
    hasOnValidCall [Event.formNotify st] v = false := rfl

@[simp] theorem hasOnValidCall_onInvalid (er : ErrMap) (v : JVal) :
    hasOnValidCall [Event.onInvalidCall er] v = false := rfl

@[simp] theorem hasOnInvalidCall_single (er : ErrMap) :
    hasOnInvalidCall [Event.onInvalidCall er] er = true := by
  simp [hasOnInvalidCall]

@[simp] theorem hasOnInvalidCall_formNotify (st : FormStatus) (er : ErrMap) :
    hasOnInvalidCall [Event.formNotify st] er = false := rfl

@[simp] theorem hasOnInvalidCall_onValid (v : JVal) (er : ErrMap) :
    hasOnInvalidCall [Event.onValidCall v] er = false := rfl

@[simp] theorem hasLogError_formNotify (st : FormStatus) :
    hasLogError [Event.formNotify st] = false := rfl

@[simp] theorem hasLogError_onValid (v : JVal) :
    hasLogError [Event.onValidCall v] = false := rfl

@[simp] theorem hasLogError_onInvalid (er : ErrMap) :
    hasLogError [Event.onInvalidCall er] = false := rfl

/-- C7: `handleSubmit` increments `submitCount` and raises `isSubmitting`
(visible in the first whole-form notification it emits), marks every tracked
path touched, runs a full validation pass, invokes `onValid` with the current
values exactly when the resulting form status is valid and otherwise invokes
`onInvalid` (when provided) with the error record; a throwing callback is
logged and swallowed — the operation never throws — and in every case
`isSubmitting` ends `false` and the last event is a whole-form
notification carrying the final status. -/
theorem handleSubmit_contract (e : Engine) (f : JVal → Bool) (g : Option (ErrMap → Bool)) :
    (handleSubmit e f g).thrown = false ∧
    (handleSubmit e f g).engine.status.isSubmitting = false ∧
    (handleSubmit e f g).engine.status.submitCount = e.status.submitCount + 1 ∧
    ((handleSubmit e f g).events.head? = some (.formNotify
      { e.status with isSubmitting := true, submitCount := e.status.submitCount + 1 })) ∧
    allTouched (handleSubmit e f g).engine.fields = true ∧
    (hasOnValidCall (handleSubmit e f g).events (handleSubmit e f g).engine.values =
      (handleSubmit e f g).engine.status.isValid) ∧
    (hasOnInvalidCall (handleSubmit e f g).events (handleSubmit e f g).engine.status.errors =
      (!(handleSubmit e f g).engine.status.isValid && g.isSome)) ∧
    (hasLogError (handleSubmit e f g).events =
      (if (handleSubmit e f g).engine.status.isValid = true
       then f (handleSubmit e f g).engine.values
       else match g with
            | some g' => g' (handleSubmit e f g).engine.status.errors
            | none => false)) ∧
    (handleSubmit e f g).events.getLast? = some (.formNotify (handleSubmit e f g).engine.status) := by
  refine ⟨rfl, rfl, ?_, ?_, ?_, ?_, ?_, ?_, ?_⟩
  · simp only [handleSubmit]
    simp [submitTouched]
  · simp only [handleSubmit, submitTouched]
    simp
  · simp only [handleSubmit]
    exact validateAll_preserves_touched _ (by simp only [submitTouched]; exact touchAll_allTouched _ _)
  · by_cases hv : (validateAll (submitTouched e).1).1.status.isValid = true
    · simp only [handleSubmit, validateAll_trd, hv, if_true]
      simp [submitTouched, hv]
    · rw [Bool.not_eq_true] at hv
      simp only [handleSubmit, validateAll_trd, hv, Bool.false_eq_true, if_false]
      cases g with
      | none => simp [submitTouched, hv]
      | some g' => simp [submitTouched, hv]
  · by_cases hv : (validateAll (submitTouched e).1).1.status.isValid = true
    · simp only [handleSubmit, validateAll_trd, hv, if_true]
      simp [submitTouched, hv]
    · rw [Bool.not_eq_true] at hv
      simp only [handleSubmit, validateAll_trd, hv, Bool.false_eq_true, if_false]
      cases g with
      | none => simp [submitTouched, hv]
      | some g' => simp [submitTouched, hv]
  · by_cases hv : (validateAll (submitTouched e).1).1.status.isValid = true
    · simp only [handleSubmit, validateAll_trd, hv, if_true]
      simp [submitTouched, hv]
    · rw [Bool.not_eq_true] at hv
      simp only [handleSubmit, validateAll_trd, hv, Bool.false_eq_true, if_false]
      cases g with
      | none => simp [submitTouched, hv]
      | some g' => simp [submitTouched, hv]
  · simp only [handleSubmit]
    simp [List.getLast?_concat]

/-! ## C2 amended — the cached dirty invariant over all reachable states -/

/-- Dirty-consistency of a field cache against a baseline tree: every cached
record's dirty flag equals `!deepEqual` of its cached value against the
baseline value at its path. -/
def dirtyConsistent (init : JVal) (l : List (String × FieldState)) : Bool :=
  l.all fun pst => pst.2.isDirty == !deepEqual pst.2.value (getByPath init pst.1)

/-- The per-engine invariant of the amended claim C2. -/
def fieldsDirtyConsistent (e : Engine) : Bool :=
  dirtyConsistent e.initialValues e.fields

/-- Engine states reachable through the public interface. -/
inductive Reachable : Engine → Prop where
  | init (cfg : FormConfig) (fresh0 : Nat) : Reachable (construct cfg fresh0).engine
  | fieldState (e : Engine) (p : String) : Reachable e → Reachable (getFieldState e p).1
  | subscribeF (e : Engine) (p : String) : Reachable e → Reachable (subscribeToField e p).1
  | setV (e : Engine) (p : String) (v : JVal) : Reachable e → Reachable (setValue e p v).engine
  | setFull (e : Engine) (nv : JVal) : Reachable e → Reachable (setFullValues e nv).engine
  | blur (e : Engine) (p : String) : Reachable e → Reachable (setBlur e p).engine
  | rst (e : Engine) (ov : Option JVal) : Reachable e → Reachable (reset e ov).engine
  | submit (e : Engine) (f : JVal → Bool) (g : Option (ErrMap → Bool)) :
      Reachable e → Reachable (handleSubmit e f g).engine

theorem dirtyConsistent_mapSet (init : JVal) (l : List (String × FieldState))
    (p : String) (st : FieldState) (hl : dirtyConsistent init l = true)
    (hst : (st.isDirty == !deepEqual st.value (getByPath init p)) = true) :
    dirtyConsistent init (mapSet l p st) = true := by
  induction l with
  | nil => simpa [dirtyConsistent, mapSet] using hst
  | cons hd tl ih =>
    obtain ⟨q, old⟩ := hd
    simp only [dirtyConsistent, List.all_cons, Bool.and_eq_true] at hl
    simp only [mapSet]
    split
    · rename_i hqp
      subst hqp
      simp only [dirtyConsistent, List.all_cons, Bool.and_eq_true]
      exact ⟨hst, hl.2⟩
    · simp only [dirtyConsistent, List.all_cons, Bool.and_eq_true]
      exact ⟨hl.1, ih hl.2⟩

theorem dirtyConsistent_mapGet (init : JVal) (l : List (String × FieldState))
    (p : String) (st : FieldState) (hl : dirtyConsistent init l = true)
    (hget : mapGet l p = some st) :
    (st.isDirty == !deepEqual st.value (getByPath init p)) = true := by
  induction l with
  | nil => simp [mapGet] at hget
  | cons hd tl ih =>
    obtain ⟨q, old⟩ := hd
    simp only [dirtyConsistent, List.all_cons, Bool.and_eq_true] at hl
    simp only [mapGet] at hget
    split at hget
    · rename_i hqp
      subst hqp
      cases hget
      exact hl.1
    · exact ih hl.2 hget

theorem dirtyConsistent_syncEntries (vals init : JVal) (ls : List String) (t : String)
    (l : List (String × FieldState)) (hl : dirtyConsistent init l = true) :
    dirtyConsistent init (syncEntries vals init ls t l).1 = true := by
  induction l with
  | nil => rfl
  | cons hd tl ih =>
    obtain ⟨p, st⟩ := hd
    simp only [dirtyConsistent, List.all_cons, Bool.and_eq_true] at hl
    simp only [syncEntries]
    split
    · simp only [dirtyConsistent, List.all_cons, Bool.and_eq_true]
      exact ⟨hl.1, ih hl.2⟩
    · split
      · simp only [dirtyConsistent, List.all_cons, Bool.and_eq_true]
        exact ⟨by simp, ih hl.2⟩
      · simp only [dirtyConsistent, List.all_cons, Bool.and_eq_true]
        exact ⟨hl.1, ih hl.2⟩

theorem dirtyConsistent_valFields (errors : ErrMap) (ls : List String) (init : JVal)
    (l : List (String × FieldState)) (hl : dirtyConsistent init l = true) :
    dirtyConsistent init (valFields errors ls l).1 = true := by
  induction l with
  | nil => rfl
  | cons hd tl ih =>
    obtain ⟨p, st⟩ := hd
    simp only [dirtyConsistent, List.all_cons, Bool.and_eq_true] at hl
    simp only [valFields]
    split <;>
      (simp only [dirtyConsistent, List.all_cons, Bool.and_eq_true]
       exact ⟨hl.1, ih hl.2⟩)

theorem dirtyConsistent_touchAll (ls : List String) (init : JVal)
    (l : List (String × FieldState)) (hl : dirtyConsistent init l = true) :
    dirtyConsistent init (touchAll ls l).1 = true := by
  induction l with
  | nil => rfl
  | cons hd tl ih =>
    obtain ⟨p, st⟩ := hd
    simp only [dirtyConsistent, List.all_cons, Bool.and_eq_true] at hl
    simp only [touchAll]
    split <;>
      (simp only [dirtyConsistent, List.all_cons, Bool.and_eq_true]
       exact ⟨hl.1, ih hl.2⟩)

theorem fieldsDirtyConsistent_getFieldState (e : Engine) (p : String)
    (h : fieldsDirtyConsistent e = true) :
    fieldsDirtyConsistent (getFieldState e p).1 = true := by
  simp only [fieldsDirtyConsistent] at *
  unfold getFieldState
  split
  · exact h
  · simp only []
    exact dirtyConsistent_mapSet _ _ _ _ h (by simp [getValue])

theorem getFieldState_snd_consistent (e : Engine) (p : String)
    (h : fieldsDirtyConsistent e = true) :
    ((getFieldState e p).2.isDirty ==
      !deepEqual (getFieldState e p).2.value (getByPath e.initialValues p)) = true := by
  unfold getFieldState
  split
  · rename_i st hget
    exact dirtyConsistent_mapGet _ _ _ _ h hget
  · simp [getValue]

theorem fieldsDirtyConsistent_notifyField (e : Engine) (p : String)
    (h : fieldsDirtyConsistent e = true) :
    fieldsDirtyConsistent (notifyField e p).1 = true := by
  unfold notifyField
  split
  · exact fieldsDirtyConsistent_getFieldState e p h
  · exact h

theorem fieldsDirtyConsistent_notifyAllFields (e : Engine) (ps : List String)
    (h : fieldsDirtyConsistent e = true) :
    fieldsDirtyConsistent (notifyAllFields e ps).1 = true := by
  induction ps generalizing e with
  | nil => exact h
  | cons p rest ih =>
    simp only [notifyAllFields]
    exact ih _ (fieldsDirtyConsistent_notifyField e p h)

theorem fieldsDirtyConsistent_validateAll (e : Engine)
    (h : fieldsDirtyConsistent e = true) :
    fieldsDirtyConsistent (validateAll e).1 = true := by
  simp only [fieldsDirtyConsistent] at *
  simp only [validateAll]
  split <;> (apply dirtyConsistent_valFields; exact h)

theorem fieldsDirtyConsistent_updateIsDirty (e : Engine)
    (h : fieldsDirtyConsistent e = true) :
    fieldsDirtyConsistent (updateIsDirty e) = true := by
  simp only [fieldsDirtyConsistent] at *
  simp only [updateIsDirty]
  split <;> exact h

theorem fieldsDirtyConsistent_setValueCore (e : Engine) (p : String) (v : JVal)
    (h : fieldsDirtyConsistent e = true) :
    fieldsDirtyConsistent (setValueCore e p v).1 = true := by
  have hsync : dirtyConsistent e.initialValues
      (syncEntries (setByPathImmutable e.values p v e.fresh).1 e.initialValues
        e.fieldListeners p e.fields).1 = true :=
    dirtyConsistent_syncEntries _ _ _ _ _ h
  have hgf := fieldsDirtyConsistent_getFieldState
    { e with values := (setByPathImmutable e.values p v e.fresh).1,
             fresh := (setByPathImmutable e.values p v e.fresh).2,
             fields := (syncEntries (setByPathImmutable e.values p v e.fresh).1 e.initialValues
               e.fieldListeners p e.fields).1 } p hsync
  rw [fieldsDirtyConsistent, getFieldState_fst_initialValues] at hgf
  simp only [setValueCore, fieldsDirtyConsistent, getFieldState_fst_initialValues]
  apply dirtyConsistent_mapSet
  · exact hgf
  · simp

theorem fieldsDirtyConsistent_setValue (e : Engine) (p : String) (v : JVal)
    (h : fieldsDirtyConsistent e = true) :
    fieldsDirtyConsistent (setValue e p v).engine = true := by
  simp only [setValue]
  split
  · exact h
  · have hc := fieldsDirtyConsistent_setValueCore e p v h
    by_cases hm : ((setValueCore e p v).1.config.mode = some ValidationMode.onChange ∨
        (setValueCore e p v).1.config.mode = some ValidationMode.all)
    · rw [if_pos hm]
      apply fieldsDirtyConsistent_notifyField
      have h4 := fieldsDirtyConsistent_updateIsDirty _ (fieldsDirtyConsistent_validateAll _ hc)
      split
      · exact h4
      · exact h4
    · rw [if_neg hm]
      apply fieldsDirtyConsistent_notifyField
      have h4 := fieldsDirtyConsistent_updateIsDirty _ hc
      split
      · exact h4
      · exact h4

theorem fieldsDirtyConsistent_validateField (e : Engine) (p : String)
    (h : fieldsDirtyConsistent e = true) :
    fieldsDirtyConsistent (validateField e p).1 = true := by
  have hgf := fieldsDirtyConsistent_getFieldState e p h
  have hst := getFieldState_snd_consistent e p h
  simp only [validateField]
  split
  · split
    · simp only [fieldsDirtyConsistent, getFieldState_fst_initialValues]
      apply dirtyConsistent_mapSet
      · rw [fieldsDirtyConsistent, getFieldState_fst_initialValues] at hgf
        exact hgf
      · simpa using hst
    · simp only [fieldsDirtyConsistent, getFieldState_fst_initialValues]
      apply dirtyConsistent_mapSet
      · rw [fieldsDirtyConsistent, getFieldState_fst_initialValues] at hgf
        exact hgf
      · simpa using hst
  · exact hgf

theorem fieldsDirtyConsistent_setBlur (e : Engine) (p : String)
    (h : fieldsDirtyConsistent e = true) :
    fieldsDirtyConsistent (setBlur e p).engine = true := by
  have hgf := fieldsDirtyConsistent_getFieldState e p h
  have hst := getFieldState_snd_consistent e p h
  have h2 : dirtyConsistent (getFieldState e p).1.initialValues
      (mapSet (getFieldState e p).1.fields p
        { (getFieldState e p).2 with isTouched := true }) = true := by
    rw [getFieldState_fst_initialValues]
    apply dirtyConsistent_mapSet
    · rw [fieldsDirtyConsistent, getFieldState_fst_initialValues] at hgf
      exact hgf
    · simpa using hst
  simp only [setBlur]
  split
  · exact hgf
  · apply fieldsDirtyConsistent_notifyField
    split
    · exact fieldsDirtyConsistent_validateField _ _ h2
    · exact h2

theorem fieldsDirtyConsistent_setFullValues (e : Engine) (nv : JVal)
    (h : fieldsDirtyConsistent e = true) :
    fieldsDirtyConsistent (setFullValues e nv).engine = true := by
  simp only [setFullValues]
  exact fieldsDirtyConsistent_notifyAllFields _ _
    (fieldsDirtyConsistent_validateAll _ (fieldsDirtyConsistent_updateIsDirty _ h))

theorem fieldsDirtyConsistent_reset (e : Engine) (ov : Option JVal) :
    fieldsDirtyConsistent (reset e ov).engine = true := by
  simp only [reset]
  split <;> rfl

theorem fieldsDirtyConsistent_subscribeToField (e : Engine) (p : String)
    (h : fieldsDirtyConsistent e = true) :
    fieldsDirtyConsistent (subscribeToField e p).1 = true := by
  simp only [subscribeToField]
  apply fieldsDirtyConsistent_getFieldState
  split
  · exact h
  · exact h

theorem fieldsDirtyConsistent_handleSubmit (e : Engine) (f : JVal → Bool)
    (g : Option (ErrMap → Bool)) (h : fieldsDirtyConsistent e = true) :
    fieldsDirtyConsistent (handleSubmit e f g).engine = true := by
  have hst : fieldsDirtyConsistent (submitTouched e).1 = true := by
    simp only [submitTouched, fieldsDirtyConsistent]
    exact dirtyConsistent_touchAll _ _ _ h
  have hva := fieldsDirtyConsistent_validateAll _ hst
  simp only [handleSubmit]
  exact hva

theorem fieldsDirtyConsistent_loadFromStorage (e : Engine)
    (h : fieldsDirtyConsistent e = true) :
    fieldsDirtyConsistent (loadFromStorage e).1 = true := by
  simp only [loadFromStorage]
  split
  · exact h
  · split
    · exact h
    · exact h
    · exact h
    · split
      · exact h
      · split
        · exact h
        · exact fieldsDirtyConsistent_setFullValues _ _ h

theorem fieldsDirtyConsistent_construct (cfg : FormConfig) (fresh0 : Nat) :
    fieldsDirtyConsistent (construct cfg fresh0).engine = true := by
  simp only [construct]
  have hload : fieldsDirtyConsistent
      (loadFromStorage
        { config := cfg, storage := cfg.storage,
          initialValues := (deepClone cfg.initialValues fresh0).1,
          values := (deepClone cfg.initialValues (deepClone cfg.initialValues fresh0).2).1,
          fields := [], status := initialStatus, fieldListeners := [],
          fresh := (deepClone cfg.initialValues (deepClone cfg.initialValues fresh0).2).2 }).1 = true :=
    fieldsDirtyConsistent_loadFromStorage _ rfl
  split
  · exact fieldsDirtyConsistent_validateAll _ hload
  · exact hload

/-- C2 amended: in every engine state reachable through the public interface
— lazy creation via `getFieldState`/`subscribeToField`, `setValue`,
`setFullValues`, `setBlur`, `reset`, `handleSubmit`, construction (with any
storage backend) — every cached field record satisfies
`isDirty == !deepEqual(cached value, initialValues at its path)`.  (The
resolved-current-value form of the invariant is refuted by
the `setFullValues` counterexample: that operation swaps the tree without
refreshing cached records, so cached value and dirty go stale together.) -/
theorem dirty_invariant_all_reachable (e : Engine) (hr : Reachable e) :
    fieldsDirtyConsistent e = true := by
  induction hr with
  | init cfg f0 => exact fieldsDirtyConsistent_construct cfg f0
  | fieldState e p _ ih => exact fieldsDirtyConsistent_getFieldState e p ih
  | subscribeF e p _ ih => exact fieldsDirtyConsistent_subscribeToField e p ih
  | setV e p v _ ih => exact fieldsDirtyConsistent_setValue e p v ih
  | setFull e nv _ ih => exact fieldsDirtyConsistent_setFullValues e nv ih
  | blur e p _ ih => exact fieldsDirtyConsistent_setBlur e p ih
  | rst e ov _ _ => exact fieldsDirtyConsistent_reset e ov
  | submit e f g _ ih => exact fieldsDirtyConsistent_handleSubmit e f g ih

/-- Witness for `dirty_invariant_all_reachable`: a concrete reachable state —
construct `{a:{b:{c:1}}}`, track `"a.b"`, write `"a.b.c"` — satisfies the
invariant. -/
theorem dirty_invariant_all_reachable_witness :
    fieldsDirtyConsistent (setValue (subscribeToField (construct cfgAbc 10).engine "a.b").1
      "a.b.c" (.vnum 5)).engine = true :=
  dirty_invariant_all_reachable _
    (Reachable.setV _ _ _ (Reachable.subscribeF _ _ (Reachable.init cfgAbc 10)))

/-! ## Structural equality modulo identity tags, well-formedness, identity
bounds — the toolbox for the deep-copy claims (C6, C9) -/

mutual

/-- Equality of trees ignoring identity tags (what a tree "looks like" to a
structural observer). -/
def eqModIds : JVal → JVal → Bool
  | .vobj _ fa, .vobj _ fb => eqFieldsModIds fa fb
  | .varr _ ea, .varr _ eb => eqElemsModIds ea eb
  | a, b => jseq a b

def eqFieldsModIds : JFields → JFields → Bool
  | .nil, .nil => true
  | .cons k v r, .cons k' v' r' => k == k' && eqModIds v v' && eqFieldsModIds r r'
  | _, _ => false

def eqElemsModIds : JElems → JElems → Bool
  | .nil, .nil => true
  | .cons v r, .cons v' r' => eqModIds v v' && eqElemsModIds r r'
  | _, _ => false

end

def hasKeyB (fs : JFields) (k : String) : Bool := (fs.lookup k).isSome

/-- No repeated keys in an object's field list (JavaScript objects cannot
repeat keys). -/
def nodupKeysB : JFields → Bool
  | .nil => true
  | .cons k _ r => !hasKeyB r k && nodupKeysB r

mutual

/-- Well-formedness of the embedding of a JavaScript value: every object node
has pairwise-distinct keys. -/
def wfKeys : JVal → Bool
  | .vobj _ fs => nodupKeysB fs && wfFieldsVals fs
  | .varr _ es => wfElemsVals es
  | _ => true

def wfFieldsVals : JFields → Bool
  | .nil => true
  | .cons _ v r => wfKeys v && wfFieldsVals r

def wfElemsVals : JElems → Bool
  | .nil => true
  | .cons v r => wfKeys v && wfElemsVals r

end

mutual

theorem eqModIds_deepClone (v : JVal) (f : Nat) : eqModIds (deepClone v f).1 v = true := by
  cases v with
  | vobj i fs =>
    simp only [deepClone, eqModIds]
    exact eqFieldsModIds_deepCloneFields fs (f + 1)
  | varr i es =>
    simp only [deepClone, eqModIds]
    exact eqElemsModIds_deepCloneElems es (f + 1)
  | vstr s => simp [deepClone, eqModIds, jseq]
  | vnum n => simp [deepClone, eqModIds, jseq]
  | vbool b => simp [deepClone, eqModIds, jseq]
  | vnull => simp [deepClone, eqModIds, jseq]
  | vundef => simp [deepClone, eqModIds, jseq]

theorem eqFieldsModIds_deepCloneFields (fs : JFields) (f : Nat) :
    eqFieldsModIds (deepCloneFields fs f).1 fs = true := by
  cases fs with
  | nil => simp [deepCloneFields, eqFieldsModIds]
  | cons k v r =>
    simp only [deepCloneFields, eqFieldsModIds, Bool.and_eq_true]
    refine ⟨⟨?_, eqModIds_deepClone v f⟩, eqFieldsModIds_deepCloneFields r (deepClone v f).2⟩
    exact beq_self_eq_true k

theorem eqElemsModIds_deepCloneElems (es : JElems) (f : Nat) :
    eqElemsModIds (deepCloneElems es f).1 es = true := by
  cases es with
  | nil => simp [deepCloneElems, eqElemsModIds]
  | cons v r =>
    simp only [deepCloneElems, eqElemsModIds, Bool.and_eq_true]
    exact ⟨eqModIds_deepClone v f, eqElemsModIds_deepCloneElems r (deepClone v f).2⟩

end

mutual

theorem eqModIds_trans (a b c : JVal) (h1 : eqModIds a b = true) (h2 : eqModIds b c = true) :
    eqModIds a c = true := by
  cases a <;> cases b <;> simp [eqModIds, jseq] at h1 <;> cases c <;>
    simp [eqModIds, jseq] at h2 ⊢ <;> try simp [h1, h2]
  case vobj.vobj.vobj => exact eqFieldsModIds_trans _ _ _ h1 h2
  case varr.varr.varr => exact eqElemsModIds_trans _ _ _ h1 h2

theorem eqFieldsModIds_trans (a b c : JFields) (h1 : eqFieldsModIds a b = true)
    (h2 : eqFieldsModIds b c = true) : eqFieldsModIds a c = true := by
  cases a <;> cases b <;> simp [eqFieldsModIds] at h1 <;> cases c <;>
    simp [eqFieldsModIds] at h2 ⊢
  case cons.cons.cons k v r k' v' r' k'' v'' r'' =>
    refine ⟨⟨by rw [h1.1.1, h2.1.1], eqModIds_trans _ _ _ h1.1.2 h2.1.2⟩,
      eqFieldsModIds_trans _ _ _ h1.2 h2.2⟩

theorem eqElemsModIds_trans (a b c : JElems) (h1 : eqElemsModIds a b = true)
    (h2 : eqElemsModIds b c = true) : eqElemsModIds a c = true := by
  cases a <;> cases b <;> simp [eqElemsModIds] at h1 <;> cases c <;>
    simp [eqElemsModIds] at h2 ⊢
  case cons.cons.cons =>
    exact ⟨eqModIds_trans _ _ _ h1.1 h2.1, eqElemsModIds_trans _ _ _ h1.2 h2.2⟩

end

theorem eqFieldsModIds_length :
    ∀ fa fb : JFields, eqFieldsModIds fa fb = true → fa.length = fb.length
  | .nil, .nil, _ => rfl
  | .nil, .cons _ _ _, h => by simp [eqFieldsModIds] at h
  | .cons _ _ _, .nil, h => by simp [eqFieldsModIds] at h
  | .cons k v r, .cons k' v' r', h => by
    simp only [eqFieldsModIds, Bool.and_eq_true] at h
    simp [JFields.length, eqFieldsModIds_length r r' h.2]

mutual

theorem deepEqual_of_eqModIds :
    ∀ a b : JVal, eqModIds a b = true → wfKeys b = true → deepEqual a b = true
  | .vstr _, b, h, _ => by cases b <;> simpa [eqModIds, deepEqual] using h
  | .vnum _, b, h, _ => by cases b <;> simpa [eqModIds, deepEqual] using h
  | .vbool _, b, h, _ => by cases b <;> simpa [eqModIds, deepEqual] using h
  | .vnull, b, h, _ => by cases b <;> simpa [eqModIds, deepEqual] using h
  | .vundef, b, h, _ => by cases b <;> simpa [eqModIds, deepEqual] using h
  | .vobj i fa, b, h, hw => by
    cases b with
    | vobj j fb =>
      simp only [eqModIds] at h
      simp only [wfKeys, Bool.and_eq_true] at hw
      simp only [deepEqual, Bool.or_eq_true, Bool.and_eq_true]
      refine Or.inr ⟨by simp [eqFieldsModIds_length fa fb h], ?_⟩
      exact deepEqualFields_of_eqModIds fa fb fb h hw.2 hw.1 (fun k _ => rfl)
    | vstr s => simp [eqModIds, jseq] at h
    | vnum n => simp [eqModIds, jseq] at h
    | vbool x => simp [eqModIds, jseq] at h
    | vnull => simp [eqModIds, jseq] at h
    | vundef => simp [eqModIds, jseq] at h
    | varr j eb => simp [eqModIds, jseq] at h
  | .varr i ea, b, h, hw => by
    cases b with
    | varr j eb =>
      simp only [eqModIds] at h
      simp only [wfKeys] at hw
      simp only [deepEqual, Bool.or_eq_true]
      exact Or.inr (deepEqualElems_of_eqModIds ea eb h hw)
    | vstr s => simp [eqModIds, jseq] at h
    | vnum n => simp [eqModIds, jseq] at h
    | vbool x => simp [eqModIds, jseq] at h
    | vnull => simp [eqModIds, jseq] at h
    | vundef => simp [eqModIds, jseq] at h
    | vobj j fb => simp [eqModIds, jseq] at h

theorem deepEqualFields_of_eqModIds :
    ∀ fa fb FB : JFields, eqFieldsModIds fa fb = true → wfFieldsVals fb = true →
      nodupKeysB fb = true → (∀ k, hasKeyB fb k = true → FB.lookup k = fb.lookup k) →
      deepEqualFields fa FB = true
  | .nil, _, _, _, _, _, _ => rfl
  | .cons k v r, fb, FB, h, hw, hnd, hag => by
    cases fb with
    | nil => simp [eqFieldsModIds] at h
    | cons k' w s =>
      simp only [eqFieldsModIds, Bool.and_eq_true, beq_iff_eq] at h
      obtain ⟨⟨hk, hv⟩, hr⟩ := h
      subst hk
      simp only [wfFieldsVals, Bool.and_eq_true] at hw
      simp only [nodupKeysB, Bool.and_eq_true, Bool.not_eq_true'] at hnd
      simp only [deepEqualFields, Bool.and_eq_true]
      constructor
      · have hFB : FB.lookup k = (JFields.cons k w s).lookup k :=
          hag k (by simp [hasKeyB, JFields.lookup])
        rw [hFB]
        simp only [JFields.lookup, if_pos rfl]
        exact deepEqual_of_eqModIds v w hv hw.1
      · apply deepEqualFields_of_eqModIds r s FB hr hw.2 hnd.2
        intro k2 hk2
        have hne : k ≠ k2 := by
          intro he
          rw [← he] at hk2
          rw [hk2] at hnd
          exact Bool.true_eq_false.mp hnd.1
        have hmem : hasKeyB (JFields.cons k w s) k2 = true := by
          simp only [hasKeyB, JFields.lookup, if_neg hne]
          simpa [hasKeyB] using hk2
        have hFB := hag k2 hmem
        rw [hFB]
        simp [JFields.lookup, hne]

theorem deepEqualElems_of_eqModIds :
    ∀ ea eb : JElems, eqElemsModIds ea eb = true → wfElemsVals eb = true →
      deepEqualElems ea eb = true
  | .nil, .nil, _, _ => rfl
  | .nil, .cons _ _, h, _ => by simp [eqElemsModIds] at h
  | .cons _ _, .nil, h, _ => by simp [eqElemsModIds] at h
  | .cons v r, .cons w s, h, hw => by
    simp only [eqElemsModIds, Bool.and_eq_true] at h
    simp only [wfElemsVals, Bool.and_eq_true] at hw
    simp only [deepEqualElems, Bool.and_eq_true]
    exact ⟨deepEqual_of_eqModIds v w h.1 hw.1, deepEqualElems_of_eqModIds r s h.2 hw.2⟩

end

theorem eqFieldsModIds_hasKey :
    ∀ fa fb : JFields, eqFieldsModIds fa fb = true → ∀ k, hasKeyB fa k = hasKeyB fb k
  | .nil, .nil, _, _ => rfl
  | .nil, .cons _ _ _, h, _ => by simp [eqFieldsModIds] at h
  | .cons _ _ _, .nil, h, _ => by simp [eqFieldsModIds] at h
  | .cons k v r, .cons k' v' r', h, k2 => by
    simp only [eqFieldsModIds, Bool.and_eq_true, beq_iff_eq] at h
    obtain ⟨⟨hk, _⟩, hr⟩ := h
    subst hk
    by_cases he : k = k2
    · simp [hasKeyB, JFields.lookup, he]
    · simp only [hasKeyB, JFields.lookup, if_neg he]
      exact eqFieldsModIds_hasKey r r' hr k2

mutual

theorem wfKeys_of_eqModIds :
    ∀ a b : JVal, eqModIds a b = true → wfKeys b = true → wfKeys a = true
  | .vstr _, _, _, _ => rfl
  | .vnum _, _, _, _ => rfl
  | .vbool _, _, _, _ => rfl
  | .vnull, _, _, _ => rfl
  | .vundef, _, _, _ => rfl
  | .vobj i fa, b, h, hw => by
    cases b with
    | vobj j fb =>
      simp only [eqModIds] at h
      simp only [wfKeys, Bool.and_eq_true] at hw ⊢
      exact ⟨nodupKeys_of_eqFieldsModIds fa fb h hw.1,
             wfFieldsVals_of_eqFieldsModIds fa fb h hw.2⟩
    | vstr s => simp [eqModIds, jseq] at h
    | vnum n => simp [eqModIds, jseq] at h
    | vbool x => simp [eqModIds, jseq] at h
    | vnull => simp [eqModIds, jseq] at h
    | vundef => simp [eqModIds, jseq] at h
    | varr j eb => simp [eqModIds, jseq] at h
  | .varr i ea, b, h, hw => by
    cases b with
    | varr j eb =>
      simp only [eqModIds] at h
      simp only [wfKeys] at hw ⊢
      exact wfElemsVals_of_eqElemsModIds ea eb h hw
    | vstr s => simp [eqModIds, jseq] at h
    | vnum n => simp [eqModIds, jseq] at h
    | vbool x => simp [eqModIds, jseq] at h
    | vnull => simp [eqModIds, jseq] at h
    | vundef => simp [eqModIds, jseq] at h
    | vobj j fb => simp [eqModIds, jseq] at h

theorem nodupKeys_of_eqFieldsModIds :
    ∀ fa fb : JFields, eqFieldsModIds fa fb = true → nodupKeysB fb = true →
      nodupKeysB fa = true
  | .nil, _, _, _ => rfl
  | .cons _ _ _, .nil, h, _ => by simp [eqFieldsModIds] at h
  | .cons k v r, .cons k' v' r', h, hnd => by
    simp only [eqFieldsModIds, Bool.and_eq_true, beq_iff_eq] at h
    obtain ⟨⟨hk, _⟩, hr⟩ := h
    subst hk
    simp only [nodupKeysB, Bool.and_eq_true, Bool.not_eq_true'] at hnd ⊢
    refine ⟨?_, nodupKeys_of_eqFieldsModIds r r' hr hnd.2⟩
    rw [eqFieldsModIds_hasKey r r' hr k]
    exact hnd.1

theorem wfFieldsVals_of_eqFieldsModIds :
    ∀ fa fb : JFields, eqFieldsModIds fa fb = true → wfFieldsVals fb = true →
      wfFieldsVals fa = true
  | .nil, _, _, _ => rfl
  | .cons _ _ _, .nil, h, _ => by simp [eqFieldsModIds] at h
  | .cons k v r, .cons k' v' r', h, hw => by
    simp only [eqFieldsModIds, Bool.and_eq_true] at h
    simp only [wfFieldsVals, Bool.and_eq_true] at hw ⊢
    exact ⟨wfKeys_of_eqModIds v v' h.1.2 hw.1,
           wfFieldsVals_of_eqFieldsModIds r r' h.2 hw.2⟩

theorem wfElemsVals_of_eqElemsModIds :
    ∀ ea eb : JElems, eqElemsModIds ea eb = true → wfElemsVals eb = true →
      wfElemsVals ea = true
  | .nil, _, _, _ => rfl
  | .cons _ _, .nil, h, _ => by simp [eqElemsModIds] at h
  | .cons v r, .cons v' r', h, hw => by
    simp only [eqElemsModIds, Bool.and_eq_true] at h
    simp only [wfElemsVals, Bool.and_eq_true] at hw ⊢
    exact ⟨wfKeys_of_eqModIds v v' h.1 hw.1, wfElemsVals_of_eqElemsModIds r r' h.2 hw.2⟩

end

/-- A deep clone of a deep clone is structurally `deepEqual` to the source. -/
theorem deepEqual_cloneClone (v : JVal) (f : Nat) (hw : wfKeys v = true) :
    deepEqual (deepClone (deepClone v f).1 (deepClone v f).2).1 v = true :=
  deepEqual_of_eqModIds _ _
    (eqModIds_trans _ _ _ (eqModIds_deepClone (deepClone v f).1 (deepClone v f).2)
      (eqModIds_deepClone v f)) hw

theorem wfKeys_deepClone (v : JVal) (f : Nat) (hw : wfKeys v = true) :
    wfKeys (deepClone v f).1 = true :=
  wfKeys_of_eqModIds _ _ (eqModIds_deepClone v f) hw

def isObjB : JVal → Bool
  | .vobj _ _ => true
  | _ => false

theorem lookup_set :
    ∀ (fs : JFields) (k : String) (v : JVal) (k2 : String),
      (fs.set k v).lookup k2 = if k = k2 then some v else fs.lookup k2
  | .nil, k, v, k2 => by simp [JFields.set, JFields.lookup]
  | .cons k' w r, k, v, k2 => by
    simp only [JFields.set]
    split
    · rename_i he
      subst he
      by_cases h2 : k' = k2 <;> simp [JFields.lookup, h2]
    · rename_i he
      by_cases h2 : k' = k2
      · subst h2
        have : ¬ k = k' := fun hc => he hc.symm
        simp [JFields.lookup, this]
      · simp [JFields.lookup, h2, lookup_set r k v k2]

theorem hasKey_set (fs : JFields) (k : String) (v : JVal) (k2 : String) :
    hasKeyB (fs.set k v) k2 = (k == k2 || hasKeyB fs k2) := by
  simp only [hasKeyB, lookup_set]
  by_cases he : k = k2 <;> simp [he]

theorem nodup_set :
    ∀ (fs : JFields) (k : String) (v : JVal), nodupKeysB fs = true →
      nodupKeysB (fs.set k v) = true
  | .nil, k, v, _ => by simp [JFields.set, nodupKeysB, hasKeyB, JFields.lookup]
  | .cons k' w r, k, v, h => by
    simp only [nodupKeysB, Bool.and_eq_true, Bool.not_eq_true'] at h
    simp only [JFields.set]
    split
    · simp only [nodupKeysB, Bool.and_eq_true, Bool.not_eq_true']
      exact ⟨h.1, h.2⟩
    · rename_i he
      simp only [nodupKeysB, Bool.and_eq_true, Bool.not_eq_true', hasKey_set]
      constructor
      · simp only [Bool.or_eq_false_iff]
        refine ⟨?_, h.1⟩
        simp only [beq_eq_false_iff_ne, ne_eq]
        exact fun hc => he hc.symm
      · exact nodup_set r k v h.2

theorem wfVals_set :
    ∀ (fs : JFields) (k : String) (v : JVal), wfFieldsVals fs = true → wfKeys v = true →
      wfFieldsVals (fs.set k v) = true
  | .nil, k, v, _, hv => by simp [JFields.set, wfFieldsVals, hv]
  | .cons k' w r, k, v, h, hv => by
    simp only [wfFieldsVals, Bool.and_eq_true] at h
    simp only [JFields.set]
    split
    · simp only [wfFieldsVals, Bool.and_eq_true]
      exact ⟨hv, h.2⟩
    · simp only [wfFieldsVals, Bool.and_eq_true]
      exact ⟨h.1, wfVals_set r k v h.2 hv⟩

theorem overlay_wf :
    ∀ gs acc : JFields, nodupKeysB acc = true → wfFieldsVals acc = true →
      wfFieldsVals gs = true →
      nodupKeysB (mergeSpread.overlay acc gs) = true ∧
        wfFieldsVals (mergeSpread.overlay acc gs) = true
  | .nil, acc, hnd, hwv, _ => ⟨hnd, hwv⟩
  | .cons k v r, acc, hnd, hwv, hg => by
    simp only [wfFieldsVals, Bool.and_eq_true] at hg
    simp only [mergeSpread.overlay]
    exact overlay_wf r (acc.set k v) (nodup_set _ _ _ hnd) (wfVals_set _ _ _ hwv hg.1) hg.2

theorem clearStorage_snd (e : Engine) : (clearStorage e).2 = removeThrowsSync e := by
  simp only [clearStorage, removeThrowsSync]
  cases e.storage with
  | none => rfl
  | some st => cases h : st.removeItem (getStorageKey e.config) <;> simp [h]

theorem reset_engine_eq (e : Engine) (ov : Option JVal) :
    (reset e ov).engine =
      { e with initialValues := (deepClone (resetBase e ov).1 (resetBase e ov).2).1,
               values := (deepClone (deepClone (resetBase e ov).1 (resetBase e ov).2).1
                 (deepClone (resetBase e ov).1 (resetBase e ov).2).2).1,
               fields := [], status := initialStatus,
               fresh := (deepClone (deepClone (resetBase e ov).1 (resetBase e ov).2).1
                 (deepClone (resetBase e ov).1 (resetBase e ov).2).2).2 } := by
  simp only [reset]
  split <;> rfl

theorem wfKeys_mergeSpread (a b : JVal) (f : Nat) (ha : isObjB a = true)
    (hb : isObjB b = true) (hwa : wfKeys a = true) (hwb : wfKeys b = true) :
    wfKeys (mergeSpread a b f).1 = true := by
  cases a <;> simp [isObjB] at ha
  cases b <;> simp [isObjB] at hb
  rename_i i fsa j fsb
  simp only [wfKeys, Bool.and_eq_true] at hwa hwb
  simp only [mergeSpread, spreadPairs, wfKeys, Bool.and_eq_true]
  exact overlay_wf fsb fsa hwa.1 hwa.2 hwb.2

theorem reset_thrown (e : Engine) (ov : Option JVal) :
    (reset e ov).thrown = removeThrowsSync e := by
  simp only [reset]
  split
  · rename_i h
    rw [clearStorage_snd] at h
    have h' : removeThrowsSync e = true := h
    rw [h']
  · rename_i h
    rw [clearStorage_snd] at h
    have h' : ¬ removeThrowsSync e = true := h
    rw [Bool.not_eq_true] at h'
    rw [h']

theorem reset_events (e : Engine) (ov : Option JVal) (hrm : removeThrowsSync e = false) :
    (reset e ov).events = (clearStorage e).1 ++ [Event.formNotify initialStatus] := by
  simp only [reset]
  split
  · rename_i h
    rw [clearStorage_snd] at h
    have h' : removeThrowsSync e = true := h
    rw [hrm] at h'
    cases h'
  · rfl

/-- C6: `reset()` restores `getValues()` to deep-equal the current baseline
`initialValues` (which, absent earlier resets, is the originally-constructed
one) with the whole-form status zeroed (`submitCount 0`, no errors, not
dirty, not submitting), the field cache cleared, the persisted snapshot
removed from storage (exactly when a backend is configured), and exactly one
whole-form notification and no per-path notifications emitted;
`reset(overrides)` first merges the overrides into the baseline, so that the
new `getValues()` deep-equals the merged baseline — different from the
construction-time initials — while `dirty` is false immediately (the new
values deep-equal the new `initialValues`).  (Assumes the backend's
`removeItem` does not throw synchronously — see the C4 counterexample
otherwise — and well-formed, object-shaped value trees.) -/
theorem reset_contract (e : Engine)
    (hrm : removeThrowsSync e = false)
    (hw : wfKeys e.initialValues = true) :
    (deepEqual (getValues (reset e none).engine) e.initialValues = true ∧
     deepEqual (getValues (reset e none).engine) (reset e none).engine.initialValues = true ∧
     (reset e none).engine.status = initialStatus ∧
     (reset e none).engine.fields = [] ∧
     (reset e none).thrown = false ∧
     countFormNotify (reset e none).events = 1 ∧
     countFieldNotify (reset e none).events = 0 ∧
     ((reset e none).events.any
       (fun ev => match ev with
         | .storageRemove k => k = getStorageKey e.config
         | _ => false) = e.storage.isSome)) ∧
    (∀ ov, truthy ov = true → wfKeys ov = true → isObjB ov = true →
      isObjB e.initialValues = true →
      deepEqual (getValues (reset e (some ov)).engine)
        (mergeSpread e.initialValues ov e.fresh).1 = true ∧
      deepEqual (getValues (reset e (some ov)).engine)
        (reset e (some ov)).engine.initialValues = true ∧
      (reset e (some ov)).engine.status = initialStatus) := by
  constructor
  · refine ⟨?_, ?_, ?_, ?_, ?_, ?_, ?_, ?_⟩
    · rw [getValues, reset_engine_eq]
      exact deepEqual_cloneClone e.initialValues e.fresh hw
    · rw [getValues, reset_engine_eq]
      exact deepEqual_of_eqModIds _ _ (eqModIds_deepClone _ _) (wfKeys_deepClone _ _ hw)
    · rw [reset_engine_eq]
    · rw [reset_engine_eq]
    · rw [reset_thrown, hrm]
    · rw [reset_events e none hrm]
      cases hs : e.storage with
      | none => simp [clearStorage, hs, countFormNotify]
      | some st =>
        simp only [clearStorage, hs]
        cases h2 : st.removeItem (getStorageKey e.config) <;> simp [countFormNotify]
    · rw [reset_events e none hrm]
      cases hs : e.storage with
      | none => simp [clearStorage, hs, countFieldNotify]
      | some st =>
        simp only [clearStorage, hs]
        cases h2 : st.removeItem (getStorageKey e.config) <;> simp [countFieldNotify]
    · rw [reset_events e none hrm]
      cases hs : e.storage with
      | none => simp [clearStorage, hs]
      | some st =>
        simp only [clearStorage, hs]
        cases h2 : st.removeItem (getStorageKey e.config) <;> simp
  · intro ov ht hwov hov hoi
    have hbase : resetBase e (some ov) = mergeSpread e.initialValues ov e.fresh := by
      simp [resetBase, ht]
    have hwm : wfKeys (mergeSpread e.initialValues ov e.fresh).1 = true :=
      wfKeys_mergeSpread _ _ _ hoi hov hw hwov
    refine ⟨?_, ?_, ?_⟩
    · rw [getValues, reset_engine_eq, hbase]
      exact deepEqual_cloneClone _ _ hwm
    · rw [getValues, reset_engine_eq, hbase]
      exact deepEqual_of_eqModIds _ _ (eqModIds_deepClone _ _) (wfKeys_deepClone _ _ hwm)
    · rw [reset_engine_eq]

/-- Override record `{name: 'Bob'}` used to exercise `reset` with a new
baseline. -/
def resetOv : JVal := .vobj 300 (.cons "name" (.vstr "Bob") .nil)

/-- Witness for `reset_contract`: concrete run on a store with a working
backend; plain reset restores the baseline, and reset with overrides zeroes
the status. -/
theorem reset_contract_witness :
    removeThrowsSync engineKeyed = false ∧
    wfKeys engineKeyed.initialValues = true ∧
    truthy resetOv = true ∧
    deepEqual (getValues (reset engineKeyed none).engine) engineKeyed.initialValues = true ∧
    (reset engineKeyed (some resetOv)).engine.status = initialStatus :=
  ⟨by decide, by decide, by decide,
   (reset_contract engineKeyed (by decide) (by decide)).1.1,
   ((reset_contract engineKeyed (by decide) (by decide)).2 resetOv (by decide) (by decide)
     (by decide) (by decide)).2.2⟩

/-! ## C9 — deep-copy isolation at construction -/

mutual

theorem deepClone_fresh_le : ∀ (v : JVal) (f : Nat), f ≤ (deepClone v f).2
  | .vobj _ fs, f => le_trans (Nat.le_succ f) (deepCloneFields_fresh_le fs (f + 1))
  | .varr _ es, f => le_trans (Nat.le_succ f) (deepCloneElems_fresh_le es (f + 1))
  | .vstr _, f => le_refl f
  | .vnum _, f => le_refl f
  | .vbool _, f => le_refl f
  | .vnull, f => le_refl f
  | .vundef, f => le_refl f

theorem deepCloneFields_fresh_le : ∀ (fs : JFields) (f : Nat), f ≤ (deepCloneFields fs f).2
  | .nil, f => le_refl f
  | .cons _ v r, f =>
    le_trans (deepClone_fresh_le v f) (deepCloneFields_fresh_le r (deepClone v f).2)

theorem deepCloneElems_fresh_le : ∀ (es : JElems) (f : Nat), f ≤ (deepCloneElems es f).2
  | .nil, f => le_refl f
  | .cons v r, f =>
    le_trans (deepClone_fresh_le v f) (deepCloneElems_fresh_le r (deepClone v f).2)

end

mutual

theorem deepClone_ids_lb :
    ∀ (v : JVal) (f i : Nat), i ∈ idsOf (deepClone v f).1 → f ≤ i
  | .vobj _ fs, f, i, hi => by
    simp only [deepClone, idsOf, List.mem_cons] at hi
    rcases hi with hi | hi
    · exact le_of_eq hi.symm
    · exact le_trans (Nat.le_succ f) (deepCloneFields_ids_lb fs (f + 1) i hi)
  | .varr _ es, f, i, hi => by
    simp only [deepClone, idsOf, List.mem_cons] at hi
    rcases hi with hi | hi
    · exact le_of_eq hi.symm
    · exact le_trans (Nat.le_succ f) (deepCloneElems_ids_lb es (f + 1) i hi)
  | .vstr _, f, i, hi => by simp [deepClone, idsOf] at hi
  | .vnum _, f, i, hi => by simp [deepClone, idsOf] at hi
  | .vbool _, f, i, hi => by simp [deepClone, idsOf] at hi
  | .vnull, f, i, hi => by simp [deepClone, idsOf] at hi
  | .vundef, f, i, hi => by simp [deepClone, idsOf] at hi

theorem deepCloneFields_ids_lb :
    ∀ (fs : JFields) (f i : Nat), i ∈ idsOfFields (deepCloneFields fs f).1 → f ≤ i
  | .nil, f, i, hi => by simp [deepCloneFields, idsOfFields] at hi
  | .cons _ v r, f, i, hi => by
    simp only [deepCloneFields, idsOfFields, List.mem_append] at hi
    rcases hi with hi | hi
    · exact deepClone_ids_lb v f i hi
    · exact le_trans (deepClone_fresh_le v f)
        (deepCloneFields_ids_lb r (deepClone v f).2 i hi)

theorem deepCloneElems_ids_lb :
    ∀ (es : JElems) (f i : Nat), i ∈ idsOfElems (deepCloneElems es f).1 → f ≤ i
  | .nil, f, i, hi => by simp [deepCloneElems, idsOfElems] at hi
  | .cons v r, f, i, hi => by
    simp only [deepCloneElems, idsOfElems, List.mem_append] at hi
    rcases hi with hi | hi
    · exact deepClone_ids_lb v f i hi
    · exact le_trans (deepClone_fresh_le v f)
        (deepCloneElems_ids_lb r (deepClone v f).2 i hi)

end

mutual

theorem mutateObjAt_noop :
    ∀ (v : JVal) (t : Nat) (k : String) (nv : JVal), t ∉ idsOf v →
      mutateObjAt v t k nv = v
  | .vobj i fs, t, k, nv, h => by
    simp only [idsOf, List.mem_cons, not_or] at h
    have hne : ¬ i = t := fun he => h.1 he.symm
    simp only [mutateObjAt, if_neg hne, mutateFieldsAt_noop fs t k nv h.2]
  | .varr i es, t, k, nv, h => by
    simp only [idsOf, List.mem_cons, not_or] at h
    simp only [mutateObjAt]
    rw [mutateElemsAt_noop es t k nv h.2]
  | .vstr _, _, _, _, _ => rfl
  | .vnum _, _, _, _, _ => rfl
  | .vbool _, _, _, _, _ => rfl
  | .vnull, _, _, _, _ => rfl
  | .vundef, _, _, _, _ => rfl

theorem mutateFieldsAt_noop :
    ∀ (fs : JFields) (t : Nat) (k : String) (nv : JVal), t ∉ idsOfFields fs →
      mutateFieldsAt fs t k nv = fs
  | .nil, _, _, _, _ => rfl
  | .cons key v r, t, k, nv, h => by
    simp only [idsOfFields, List.mem_append, not_or] at h
    simp only [mutateFieldsAt]
    rw [mutateObjAt_noop v t k nv h.1, mutateFieldsAt_noop r t k nv h.2]

theorem mutateElemsAt_noop :
    ∀ (es : JElems) (t : Nat) (k : String) (nv : JVal), t ∉ idsOfElems es →
      mutateElemsAt es t k nv = es
  | .nil, _, _, _, _ => rfl
  | .cons v r, t, k, nv, h => by
    simp only [idsOfElems, List.mem_append, not_or] at h
    simp only [mutateElemsAt]
    rw [mutateObjAt_noop v t k nv h.1, mutateElemsAt_noop r t k nv h.2]

end

theorem construct_none_values (cfg : FormConfig) (f0 : Nat) (hs : cfg.storage = none) :
    (construct cfg f0).engine.values =
      (deepClone cfg.initialValues (deepClone cfg.initialValues f0).2).1 := by
  simp only [construct, loadFromStorage, hs]
  split <;> simp

theorem construct_none_initialValues (cfg : FormConfig) (f0 : Nat) (hs : cfg.storage = none) :
    (construct cfg f0).engine.initialValues = (deepClone cfg.initialValues f0).1 := by
  simp only [construct, loadFromStorage, hs]
  split <;> simp

/-- C9: construction deep-copies the supplied `initialValues` into both the
initial and the current slot: `getValues()` deep-equals the input snapshot,
and the engine's trees share no node identity with the caller's tree, so an
external in-place mutation through the caller's object (any node id of the
input, any key, any new value) leaves both engine trees unchanged — and
`getValues()` therefore still deep-equal to the original snapshot.  `fresh0`
bounds the caller tree's identities, reflecting that fresh allocations never
collide with live objects; no storage backend is configured (a storage load
would overwrite the values slot by design). -/
theorem construction_deep_copies (cfg : FormConfig) (fresh0 : Nat)
    (hs : cfg.storage = none)
    (hw : wfKeys cfg.initialValues = true)
    (hb : ∀ i ∈ idsOf cfg.initialValues, i < fresh0) :
    deepEqual (getValues (construct cfg fresh0).engine) cfg.initialValues = true ∧
    (∀ i ∈ idsOf cfg.initialValues, ∀ k nv,
      mutateObjAt (construct cfg fresh0).engine.values i k nv =
        (construct cfg fresh0).engine.values ∧
      mutateObjAt (construct cfg fresh0).engine.initialValues i k nv =
        (construct cfg fresh0).engine.initialValues) := by
  constructor
  · rw [getValues, construct_none_values cfg fresh0 hs]
    exact deepEqual_of_eqModIds _ _ (eqModIds_deepClone _ _) hw
  · intro i hi k nv
    have hif : i < fresh0 := hb i hi
    constructor
    · rw [construct_none_values cfg fresh0 hs]
      apply mutateObjAt_noop
      intro hmem
      have h1 := deepClone_ids_lb _ _ _ hmem
      have h2 : fresh0 ≤ (deepClone cfg.initialValues fresh0).2 := deepClone_fresh_le _ _
      omega
    · rw [construct_none_initialValues cfg fresh0 hs]
      apply mutateObjAt_noop
      intro hmem
      have h1 := deepClone_ids_lb _ _ _ hmem
      omega

/-- Witness for `construction_deep_copies`: the `{a:{b:{c:1}}}` fixture with
identities 0-2 and allocator seed 10; mutating the caller's root object does
not change the store. -/
theorem construction_deep_copies_witness :
    cfgAbc.storage = none ∧
    wfKeys cfgAbc.initialValues = true ∧
    (∀ i ∈ idsOf cfgAbc.initialValues, i < 10) ∧
    deepEqual (getValues (construct cfgAbc 10).engine) cfgAbc.initialValues = true ∧
    mutateObjAt (construct cfgAbc 10).engine.values 0 "a" (.vnum 99) =
      (construct cfgAbc 10).engine.values :=
  ⟨rfl, by decide, by decide,
   (construction_deep_copies cfgAbc 10 rfl (by decide) (by decide)).1,
   ((construction_deep_copies cfgAbc 10 rfl (by decide) (by decide)).2 0 (by decide)
     "a" (.vnum 99)).1⟩

/-! ## C1 — `setValue` keeps tracked ancestors and descendants consistent -/

/-- `jseq` on two objects compares identity tags only. -/
theorem jseq_vobj (i : Nat) (fs : JFields) (j : Nat) (gs : JFields) :
    jseq (.vobj i fs) (.vobj j gs) = (i == j) := rfl

/-- Objects are always truthy. -/
theorem truthy_vobj (i : Nat) (fs : JFields) : truthy (.vobj i fs) = true := rfl

/-- Values that are not `deepEqual` are in particular not `===`. -/
theorem jseq_false_of_deepEqual_false (a b : JVal) (h : deepEqual a b = false) :
    jseq a b = false := by
  cases a <;> cases b <;> first
    | exact h
    | (simp only [deepEqual, Bool.or_eq_false_iff] at h
       simp only [jseq, h.1])

/-- The `{a:{b:{c:1}}}` engine with field subscriptions already registered on
the ancestor paths `"a"` and `"a.b"` (in that order). -/
def engineAncestorsTracked : Engine :=
  (subscribeToField (subscribeToField (construct cfgAbc 10).engine "a").1 "a.b").1

/-- The `{a:{b:{c:1}}}` engine with a field subscription already registered on
the leaf path `"a.b.c"`. -/
def engineDescendantTracked : Engine :=
  (subscribeToField (construct cfgAbc 10).engine "a.b.c").1

/-- The caller-supplied replacement object `{b: {c: y}}` written to `"a"` in
the descendant scenario (its own fresh identities 100/101). -/
def parentOverride (y : JVal) : JVal :=
  .vobj 100 (.cons "b" (.vobj 101 (.cons "c" y .nil)) .nil)

/-- The engine-held clone of the initial values (identities 10-12). -/
def initCloneAbc : JVal :=
  .vobj 10 (.cons "a" (.vobj 11 (.cons "b" (.vobj 12 (.cons "c" (.vnum 1) .nil)) .nil)) .nil)

/-- The engine-held clone of the current values (identities 13-15). -/
def valuesCloneAbc : JVal :=
  .vobj 13 (.cons "a" (.vobj 14 (.cons "b" (.vobj 15 (.cons "c" (.vnum 1) .nil)) .nil)) .nil)

/-- The tree produced by `setByPathImmutable(values, "a.b.c", x)`: the spine is
copied with fresh identities 16-18, the leaf holds `x`. -/
def wroteLeafTree (x : JVal) : JVal :=
  .vobj 18 (.cons "a" (.vobj 17 (.cons "b" (.vobj 16 (.cons "c" x .nil)) .nil)) .nil)

/-- The tree produced by `setByPathImmutable(values, "a", parentOverride y)`:
only the root is re-allocated (identity 16), the override is shared. -/
def wroteParentTree (y : JVal) : JVal := .vobj 16 (.cons "a" (parentOverride y) .nil)

/-- The resynchronised cached state of the tracked ancestor `"a"` after the
leaf write. -/
def syncedAState (x : JVal) : FieldState :=
  ⟨.vobj 17 (.cons "b" (.vobj 16 (.cons "c" x .nil)) .nil), none, true, false, true⟩

/-- The resynchronised cached state of the tracked ancestor `"a.b"` after the
leaf write. -/
def syncedAbState (x : JVal) : FieldState :=
  ⟨.vobj 16 (.cons "c" x .nil), none, true, false, true⟩

/-- The whole-form status after a dirtying write in `none` validation mode. -/
def dirtyOnlyStatus : FormStatus := { initialStatus with isDirty := true }

theorem engineAncestorsTracked_eq : engineAncestorsTracked =
    { config := cfgAbc, storage := none, initialValues := initCloneAbc, values := valuesCloneAbc,
      fields := [("a", ⟨.vobj 14 (.cons "b" (.vobj 15 (.cons "c" (.vnum 1) .nil)) .nil), none, false, false, true⟩),
                 ("a.b", ⟨.vobj 15 (.cons "c" (.vnum 1) .nil), none, false, false, true⟩)],
      status := initialStatus, fieldListeners := ["a", "a.b"], fresh := 16 } := rfl

theorem engineDescendantTracked_eq : engineDescendantTracked =
    { config := cfgAbc, storage := none, initialValues := initCloneAbc, values := valuesCloneAbc,
      fields := [("a.b.c", ⟨.vnum 1, none, false, false, true⟩)],
      status := initialStatus, fieldListeners := ["a.b.c"], fresh := 16 } := rfl

theorem getByPath_wroteLeaf_a (x : JVal) :
    getByPath (wroteLeafTree x) "a" = .vobj 17 (.cons "b" (.vobj 16 (.cons "c" x .nil)) .nil) := by
  rw [getByPath, show splitPath "a" = ["a"] from by decide,
    if_neg (by simp [wroteLeafTree, truthy])]
  simp [getByPathSegs, getProp, JFields.lookup, wroteLeafTree]

theorem getByPath_wroteLeaf_ab (x : JVal) :
    getByPath (wroteLeafTree x) "a.b" = .vobj 16 (.cons "c" x .nil) := by
  rw [getByPath, show splitPath "a.b" = ["a", "b"] from by decide,
    if_neg (by simp [wroteLeafTree, truthy])]
  simp [getByPathSegs, getProp, JFields.lookup, wroteLeafTree]

theorem getByPath_wroteLeaf_abc (x : JVal) : getByPath (wroteLeafTree x) "a.b.c" = x := by
  rw [getByPath, show splitPath "a.b.c" = ["a", "b", "c"] from by decide,
    if_neg (by simp [wroteLeafTree, truthy])]
  simp [getByPathSegs, getProp, JFields.lookup, wroteLeafTree]

theorem getByPath_syncedA_bc (x : JVal) :
    getByPath (.vobj 17 (.cons "b" (.vobj 16 (.cons "c" x .nil)) .nil)) "b.c" = x := by
  rw [getByPath, show splitPath "b.c" = ["b", "c"] from by decide, if_neg (by simp [truthy])]
  simp [getByPathSegs, getProp, JFields.lookup]

theorem getByPath_syncedAb_c (x : JVal) :
    getByPath (.vobj 16 (.cons "c" x .nil)) "c" = x := by
  rw [getByPath, show splitPath "c" = ["c"] from by decide, if_neg (by simp [truthy])]
  simp [getByPathSegs, getProp, JFields.lookup]

theorem getByPath_wroteParent_abc (y : JVal) : getByPath (wroteParentTree y) "a.b.c" = y := by
  rw [getByPath, show splitPath "a.b.c" = ["a", "b", "c"] from by decide,
    if_neg (by simp [wroteParentTree, truthy])]
  simp [getByPathSegs, getProp, JFields.lookup, wroteParentTree, parentOverride]

set_option maxHeartbeats 1000000 in
/-- Steps (a)-(c) of `setValue("a.b.c", x)` on the ancestor-tracking engine:
the immutable write re-spines the tree, the sync loop refreshes BOTH tracked
ancestor records (each with a notification), and the written path's record is
created. -/
theorem setValueCore_ancestors_eq (x : JVal)
    (h1 : deepEqual (.vnum 1) x = false) (h2 : deepEqual x (.vnum 1) = false) :
    setValueCore engineAncestorsTracked "a.b.c" x =
      ({ config := cfgAbc, storage := none, initialValues := initCloneAbc,
         values := wroteLeafTree x,
         fields := [("a", syncedAState x), ("a.b", syncedAbState x),
                    ("a.b.c", ⟨x, none, true, false, true⟩)],
         status := initialStatus, fieldListeners := ["a", "a.b"], fresh := 19 },
       [.fieldNotify "a" (syncedAState x), .fieldNotify "a.b" (syncedAbState x)]) := by
  have hj : jseq (.vnum 1) x = false := jseq_false_of_deepEqual_false _ _ h1
  have hsp : setByPathImmutable valuesCloneAbc "a.b.c" x 16 = (wroteLeafTree x, 19) := by
    rw [setByPathImmutable, if_neg (by decide), show splitPath "a.b.c" = ["a", "b", "c"] from by decide]
    simp [valuesCloneAbc, wroteLeafTree, sbpUpdate, getProp, JFields.lookup, truthy, spreadPairs,
      JFields.set, hj, jseq_vobj]
  have hia : getByPath initCloneAbc "a"
      = .vobj 11 (.cons "b" (.vobj 12 (.cons "c" (.vnum 1) .nil)) .nil) := by decide
  have hiab : getByPath initCloneAbc "a.b" = .vobj 12 (.cons "c" (.vnum 1) .nil) := by decide
  have hiabc : getByPath initCloneAbc "a.b.c" = .vnum 1 := by decide
  have dEa : deepEqual (.vobj 17 (.cons "b" (.vobj 16 (.cons "c" x .nil)) .nil))
      (.vobj 11 (.cons "b" (.vobj 12 (.cons "c" (.vnum 1) .nil)) .nil)) = false := by
    simp [deepEqual, deepEqualFields, JFields.lookup, JFields.length, h2]
  have dEab : deepEqual (.vobj 16 (.cons "c" x .nil))
      (.vobj 12 (.cons "c" (.vnum 1) .nil)) = false := by
    simp [deepEqual, deepEqualFields, JFields.lookup, JFields.length, h2]
  rw [engineAncestorsTracked_eq]
  simp only [setValueCore]
  rw [hsp]
  simp [syncEntries, getFieldState, getValue, mapGet, mapSet, getByPath_wroteLeaf_a,
    getByPath_wroteLeaf_ab, getByPath_wroteLeaf_abc, hia, hiab, hiabc, dEa, dEab, h2, jseq_vobj,
    syncedAState, syncedAbState]

set_option maxHeartbeats 1000000 in
/-- The full `setValue("a.b.c", x)` on the ancestor-tracking engine: both
tracked ancestors are notified (the written path has no listener), the form
goes dirty, nothing is persisted, nothing thrown. -/
theorem setValue_ancestors_eq (x : JVal)
    (h1 : deepEqual (.vnum 1) x = false) (h2 : deepEqual x (.vnum 1) = false) :
    setValue engineAncestorsTracked "a.b.c" x =
      ⟨{ config := cfgAbc, storage := none, initialValues := initCloneAbc,
         values := wroteLeafTree x,
         fields := [("a", syncedAState x), ("a.b", syncedAbState x),
                    ("a.b.c", ⟨x, none, true, false, true⟩)],
         status := dirtyOnlyStatus, fieldListeners := ["a", "a.b"], fresh := 19 },
       [.fieldNotify "a" (syncedAState x), .fieldNotify "a.b" (syncedAbState x),
        .formNotify dirtyOnlyStatus], false⟩ := by
  have dEroot : deepEqual (wroteLeafTree x) initCloneAbc = false := by
    simp [wroteLeafTree, initCloneAbc, deepEqual, deepEqualFields, JFields.lookup,
      JFields.length, h2]
  simp only [setValue]
  rw [show getByPath engineAncestorsTracked.values "a.b.c" = .vnum 1 from by decide, h1]
  rw [setValueCore_ancestors_eq x h1 h2]
  simp [cfgAbc, updateIsDirty, dEroot, notifyField, saveToStorage, initialStatus, dirtyOnlyStatus]

set_option maxHeartbeats 1000000 in
/-- Steps (a)-(c) of `setValue("a", parentOverride y)` on the leaf-tracking
engine: the root is re-allocated around the override, and the sync loop
refreshes the tracked descendant `"a.b.c"` (value and dirty recomputed from
the new resolved value), notifying it; the written path's record is created. -/
theorem setValueCore_descendant_eq (y : JVal) (h4 : deepEqual y (.vnum 1) = false) :
    setValueCore engineDescendantTracked "a" (parentOverride y) =
      ({ config := cfgAbc, storage := none, initialValues := initCloneAbc,
         values := wroteParentTree y,
         fields := [("a.b.c", ⟨y, none, true, false, true⟩),
                    ("a", ⟨parentOverride y, none, true, false, true⟩)],
         status := initialStatus, fieldListeners := ["a.b.c"], fresh := 17 },
       [.fieldNotify "a.b.c" ⟨y, none, true, false, true⟩]) := by
  have hjy : jseq y (.vnum 1) = false := jseq_false_of_deepEqual_false _ _ h4
  have hspB : setByPathImmutable valuesCloneAbc "a" (parentOverride y) 16
      = (wroteParentTree y, 17) := by
    rw [setByPathImmutable, if_neg (by decide), show splitPath "a" = ["a"] from by decide]
    simp [valuesCloneAbc, wroteParentTree, parentOverride, sbpUpdate, getProp, JFields.lookup,
      truthy, spreadPairs, JFields.set, jseq_vobj]
  have hgBa : getByPath (wroteParentTree y) "a" = parentOverride y := by
    rw [getByPath, show splitPath "a" = ["a"] from by decide,
      if_neg (by simp [wroteParentTree, truthy])]
    simp [getByPathSegs, getProp, JFields.lookup, wroteParentTree]
  have hia : getByPath initCloneAbc "a"
      = .vobj 11 (.cons "b" (.vobj 12 (.cons "c" (.vnum 1) .nil)) .nil) := by decide
  have hiabc : getByPath initCloneAbc "a.b.c" = .vnum 1 := by decide
  have dEB : deepEqual (parentOverride y)
      (.vobj 11 (.cons "b" (.vobj 12 (.cons "c" (.vnum 1) .nil)) .nil)) = false := by
    simp [parentOverride, deepEqual, deepEqualFields, JFields.lookup, JFields.length, h4]
  rw [engineDescendantTracked_eq]
  simp only [setValueCore]
  rw [hspB]
  simp [syncEntries, getFieldState, getValue, mapGet, mapSet, hgBa, getByPath_wroteParent_abc,
    hia, hiabc, dEB, h4, hjy]

set_option maxHeartbeats 1000000 in
/-- The full `setValue("a", parentOverride y)` on the leaf-tracking engine:
the tracked descendant `"a.b.c"` is notified with its refreshed state, the
form goes dirty, nothing is persisted, nothing thrown. -/
theorem setValue_descendant_eq (y : JVal)
    (h3 : deepEqual (.vnum 1) y = false) (h4 : deepEqual y (.vnum 1) = false) :
    setValue engineDescendantTracked "a" (parentOverride y) =
      ⟨{ config := cfgAbc, storage := none, initialValues := initCloneAbc,
         values := wroteParentTree y,
         fields := [("a.b.c", ⟨y, none, true, false, true⟩),
                    ("a", ⟨parentOverride y, none, true, false, true⟩)],
         status := dirtyOnlyStatus, fieldListeners := ["a.b.c"], fresh := 17 },
       [.fieldNotify "a.b.c" ⟨y, none, true, false, true⟩, .formNotify dirtyOnlyStatus],
       false⟩ := by
  have hj3 : jseq (.vnum 1) y = false := jseq_false_of_deepEqual_false _ _ h3
  have hguardB : deepEqual (.vobj 14 (.cons "b" (.vobj 15 (.cons "c" (.vnum 1) .nil)) .nil))
      (parentOverride y) = false := by
    simp [parentOverride, deepEqual, deepEqualFields, JFields.lookup, JFields.length, h3, hj3]
  have dErootB : deepEqual (wroteParentTree y) initCloneAbc = false := by
    simp [wroteParentTree, parentOverride, initCloneAbc, deepEqual, deepEqualFields,
      JFields.lookup, JFields.length, h4]
  simp only [setValue]
  rw [show getByPath engineDescendantTracked.values "a"
        = .vobj 14 (.cons "b" (.vobj 15 (.cons "c" (.vnum 1) .nil)) .nil) from by decide,
    hguardB]
  rw [setValueCore_descendant_eq y h4]
  simp [cfgAbc, updateIsDirty, dErootB, notifyField, saveToStorage, initialStatus, dirtyOnlyStatus]

/-- C1: `setValue` keeps already-tracked relatives of the written path
consistent.  Writing the leaf (`setValue("a.b.c", x)`, with `x` a genuine
change) on a form that already tracks the ancestors `"a"` and `"a.b"` leaves
`getValue` of each tracked ancestor reflecting `x` at the corresponding
sub-path, resolves the written leaf to `x`, and notifies both ancestors'
subscribers.  Replacing the parent object (`setValue("a", {b:{c:y}})`) on a
form that already tracks the descendant `"a.b.c"` updates that descendant's
cached record to value `y` with `dirty = true`, resolves `getValue("a.b.c")`
to `y`, and notifies the descendant's subscriber. -/
theorem setValue_syncs_tracked_relatives (x y : JVal)
    (h1 : deepEqual (.vnum 1) x = false) (h2 : deepEqual x (.vnum 1) = false)
    (h3 : deepEqual (.vnum 1) y = false) (h4 : deepEqual y (.vnum 1) = false) :
    (getByPath (getValue (setValue engineAncestorsTracked "a.b.c" x).engine "a") "b.c" = x
      ∧ getByPath (getValue (setValue engineAncestorsTracked "a.b.c" x).engine "a.b") "c" = x
      ∧ getValue (setValue engineAncestorsTracked "a.b.c" x).engine "a.b.c" = x
      ∧ notifiesField (setValue engineAncestorsTracked "a.b.c" x).events "a" = true
      ∧ notifiesField (setValue engineAncestorsTracked "a.b.c" x).events "a.b" = true)
    ∧ (mapGet (setValue engineDescendantTracked "a" (parentOverride y)).engine.fields "a.b.c"
         = some ⟨y, none, true, false, true⟩
      ∧ getValue (setValue engineDescendantTracked "a" (parentOverride y)).engine "a.b.c" = y
      ∧ notifiesField (setValue engineDescendantTracked "a" (parentOverride y)).events "a.b.c"
         = true) := by
  rw [setValue_ancestors_eq x h1 h2, setValue_descendant_eq y h3 h4]
  refine ⟨⟨?_, ?_, ?_, ?_, ?_⟩, ?_, ?_, ?_⟩
  · simp [getValue, getByPath_wroteLeaf_a, getByPath_syncedA_bc, syncedAState]
  · simp [getValue, getByPath_wroteLeaf_ab, getByPath_syncedAb_c, syncedAbState]
  · simp [getValue, getByPath_wroteLeaf_abc]
  · simp [notifiesField]
  · simp [notifiesField]
  · simp [mapGet]
  · simp [getValue, getByPath_wroteParent_abc]
  · simp [notifiesField]

/-- Witness for `setValue_syncs_tracked_relatives`: the leaf written to `2`,
the parent override carrying `7`. -/
theorem setValue_syncs_tracked_relatives_witness :
    (deepEqual (.vnum 1) (.vnum 2) = false ∧ deepEqual (.vnum 2) (.vnum 1) = false
      ∧ deepEqual (.vnum 1) (.vnum 7) = false ∧ deepEqual (.vnum 7) (.vnum 1) = false)
    ∧ ((getByPath (getValue (setValue engineAncestorsTracked "a.b.c" (.vnum 2)).engine "a") "b.c"
          = .vnum 2
      ∧ getByPath (getValue (setValue engineAncestorsTracked "a.b.c" (.vnum 2)).engine "a.b") "c"
          = .vnum 2
      ∧ getValue (setValue engineAncestorsTracked "a.b.c" (.vnum 2)).engine "a.b.c" = .vnum 2
      ∧ notifiesField (setValue engineAncestorsTracked "a.b.c" (.vnum 2)).events "a" = true
      ∧ notifiesField (setValue engineAncestorsTracked "a.b.c" (.vnum 2)).events "a.b" = true)
    ∧ (mapGet (setValue engineDescendantTracked "a" (parentOverride (.vnum 7))).engine.fields
          "a.b.c" = some ⟨.vnum 7, none, true, false, true⟩
      ∧ getValue (setValue engineDescendantTracked "a" (parentOverride (.vnum 7))).engine "a.b.c"
          = .vnum 7
      ∧ notifiesField (setValue engineDescendantTracked "a" (parentOverride (.vnum 7))).events
          "a.b.c" = true)) :=
  ⟨⟨by decide, by decide, by decide, by decide⟩,
   setValue_syncs_tracked_relatives (.vnum 2) (.vnum 7)
     (by decide) (by decide) (by decide) (by decide)⟩

end GhostForm
